import Mathlib

/-!
Verification of the `yrs_uniffi` boundary layer (shallow embedding).

The Rust sources under `src/yrs_uniffi/src/` are translated into executable
Lean definitions:

* `tools.rs`        — the `Error` taxonomy;
* `attrs.rs`        — the dynamic value marshaller (`into_yvalue` / `from_yvalue`,
                      `map_attrs`, `parse_attrs`);
* `transaction.rs`  — the transaction scope manager (`commit`, `Drop`,
                      `diff_v1` / `diff_v2`);
* `doc.rs`          — `YDoc::transaction`;
* `collection.rs`   — the `SharedCollection` state machine and
                      `Integrated::transact_mut` / `mutably`;
* `xml.rs`, `xml_elem.rs`, `xml_frag.rs`, `xml_text.rs`, `text.rs`
                    — the XML / text shared types and the nested-preliminary
                      integration protocol, modelled over an explicit heap of
                      handle cells plus an engine node store with an operation
                      log.

The CRDT engine (`yrs`) itself is external; where a boundary function calls
into it (JSON parsing, state-vector codecs, node allocation and linking) the
engine primitive is taken as a parameter or modelled by the minimal state it
manipulates, and a comment at the definition records the correspondence.
-/

namespace YrsUniffi

/-- Model of `tools.rs::Error`: the error taxonomy returned across the boundary. -/
inductive Error where
  | InvalidTransactionCtx
  | RefDisposed
  | TxnCommitted
  | AnotherTx
  | AnotherRwTx
  | InvalidPrelimOp
  | InvalidFmt
  | NotPrelim
  | InvalidDelta
  | Custom (msg : String)
  | InvalidData (msg : String)
  | InvalidParent
deriving Repr, DecidableEq

/-! ## Value marshaller (`attrs.rs`)

The engine-native dynamic value type `yrs::Any` and the boundary value type
`YValue`.  `f64` payloads are represented by their 64-bit pattern (the
marshaller only ever copies them, it never computes with them); `i64`
payloads by `Int`; `HashMap`s by association lists (the marshaller maps over
the entries one by one). -/

/-- The engine's dynamic value type `yrs::Any` (the subset the marshaller
touches; `Undefined` is a distinct variant). -/
inductive AnyV where
  | null
  | undefined
  | bool (b : Bool)
  | number (bits : Nat)
  | bigint (i : Int)
  | string (s : String)
  | buffer (bs : List Nat)
  | array (xs : List AnyV)
  | map (m : List (String × AnyV))

/-- Model of `attrs.rs::YValue`: the boundary's closed dynamic value union. -/
inductive YValue where
  | Null
  | Bool (b : Bool)
  | Number (bits : Nat)
  | BigInt (i : Int)
  | String (s : String)
  | Buffer (bs : List Nat)
  | Array (xs : List YValue)
  | AttrMap (m : List (String × YValue))

mutual

/-- Model of `attrs.rs::into_yvalue`: engine value → boundary value.
`Any::Undefined` is mapped to `YValue::Null`; containers recurse. -/
def into_yvalue : AnyV → YValue
  | .null => .Null
  | .undefined => .Null
  | .bool b => .Bool b
  | .number bits => .Number bits
  | .bigint i => .BigInt i
  | .string s => .String s
  | .buffer bs => .Buffer bs
  | .array xs => .Array (into_yvalue_list xs)
  | .map m => .AttrMap (into_yattrs2 m)

/-- The element-wise recursion of `into_yvalue` over an `Any::Array`. -/
def into_yvalue_list : List AnyV → List YValue
  | [] => []
  | x :: xs => into_yvalue x :: into_yvalue_list xs

/-- Model of `attrs.rs::into_yattrs2`: entry-wise conversion of an `Any::Map`. -/
def into_yattrs2 : List (String × AnyV) → List (String × YValue)
  | [] => []
  | (k, v) :: rest => (k, into_yvalue v) :: into_yattrs2 rest

end

mutual

/-- Model of `attrs.rs::from_yvalue`: boundary value → engine value. -/
def from_yvalue : YValue → AnyV
  | .Null => .null
  | .Bool b => .bool b
  | .Number bits => .number bits
  | .BigInt i => .bigint i
  | .String s => .string s
  | .Buffer bs => .buffer bs
  | .Array xs => .array (from_yvalue_list xs)
  | .AttrMap m => .map (from_yvalue_map m)

/-- The element-wise recursion of `from_yvalue` over a `YValue::Array`. -/
def from_yvalue_list : List YValue → List AnyV
  | [] => []
  | x :: xs => from_yvalue x :: from_yvalue_list xs

/-- The entry-wise recursion of `from_yvalue` over a `YValue::AttrMap`. -/
def from_yvalue_map : List (String × YValue) → List (String × AnyV)
  | [] => []
  | (k, v) :: rest => (k, from_yvalue v) :: from_yvalue_map rest

end

mutual

/-- Holds iff an engine value contains no `Undefined` anywhere. -/
def AnyV.noUndef : AnyV → Bool
  | .undefined => false
  | .array xs => AnyV.noUndefList xs
  | .map m => AnyV.noUndefMap m
  | _ => true

/-- Conjunction of `noUndef` over the elements of an array. -/
def AnyV.noUndefList : List AnyV → Bool
  | [] => true
  | x :: xs => x.noUndef && AnyV.noUndefList xs

/-- Conjunction of `noUndef` over the values of a map. -/
def AnyV.noUndefMap : List (String × AnyV) → Bool
  | [] => true
  | (_, v) :: rest => v.noUndef && AnyV.noUndefMap rest

end

/-! ## Transaction scope manager (`transaction.rs`, `doc.rs`, `collection.rs`)

The engine document is modelled by the state a transaction can observe and
mutate: a list of applied changes (`content`) plus the single mutable-borrow
slot (`busy`).  A raw engine `TransactionMut` carries the changes buffered
since it was opened (`pending`) and its optional origin tag.  Engine facts
used (yrs): `try_transact_mut` fails while another transaction is open;
committing a `TransactionMut` applies its buffered changes; dropping it
releases the document borrow. -/

/-- An engine-side change; its structure is irrelevant to the boundary layer,
only that commit applies the buffered changes in order. -/
abbrev Change := Nat

/-- The engine document as seen by the transaction manager: applied changes
and the mutable-transaction slot. -/
structure DocM where
  busy : Bool
  content : List Change
deriving Repr, DecidableEq

/-- A raw engine `TransactionMut`: buffered changes plus the origin tag that
`doc.rs::YDoc::transaction` attaches. -/
structure EngineTxnMut where
  pending : List Change
  origin : Option String
deriving Repr, DecidableEq

/-- Engine `Doc::try_transact_mut` (with optional origin): fails while a
transaction is open, otherwise opens the document's single mutable slot. -/
def DocM.try_transact_mut (d : DocM) (origin : Option String) :
    Except Unit (EngineTxnMut × DocM) :=
  if d.busy then .error () else .ok ({ pending := [], origin }, { d with busy := true })

/-- Engine `TransactionMut::commit`: applies the buffered changes to the
document. -/
def EngineTxnMut.commitRaw (t : EngineTxnMut) (d : DocM) : DocM :=
  { d with content := d.content ++ t.pending }

/-- Engine drop of a `TransactionMut`: the document's mutable borrow is
released. -/
def DocM.releaseBorrow (d : DocM) : DocM :=
  { d with busy := false }

/-- Model of `transaction.rs::YTransactionInner`: the wrapped engine
transactionplus the `committed` flag (`ManuallyDrop` is modelled by keeping
the value and tracking dropped-ness through `committed`, exactly the
invariant the source relies on). -/
structure YTransactionInner where
  inner : EngineTxnMut
  committed : Bool
deriving Repr, DecidableEq

/-- Model of `transaction.rs::YTransactionInner::commit`: on the first call
the engine transaction is committed, the flag is set and the inner
`TransactionMut` is dropped (releasing the document borrow); a second call
returns `TxnCommitted` and changes nothing. -/
def YTransactionInner.commit (t : YTransactionInner) (d : DocM) :
    (YTransactionInner × DocM) × Option Error :=
  if !t.committed then
    let d1 := t.inner.commitRaw d
    let t1 := { t with committed := true }
    let d2 := d1.releaseBorrow
    ((t1, d2), none)
  else
    ((t, d), some .TxnCommitted)

/-- Model of `transaction.rs::impl Drop for YTransactionInner`: commit as a
last resort when the flag is not yet set. -/
def YTransactionInner.dropImpl (t : YTransactionInner) (d : DocM) :
    YTransactionInner × DocM :=
  if !t.committed then (t.commit d).1 else (t, d)

/-- Model of `doc.rs::YDoc::transaction`: open the document's mutable slot,
mapping the engine's busy failure to `AnotherRwTx`. -/
def YDoc.transaction (d : DocM) (origin : Option String) :
    Except Error (YTransactionInner × DocM) :=
  match d.try_transact_mut origin with
  | .ok (raw, d1) => .ok ({ inner := raw, committed := false }, d1)
  | .error _ => .error .AnotherRwTx

/-- Model of `collection.rs::Integrated::transact_mut`: the implicit per-call
transaction used by shared-collection operations when the caller supplies
none; the engine's busy failure is mapped to `AnotherTx`. -/
def Integrated.transact_mut (d : DocM) : Except Error (EngineTxnMut × DocM) :=
  match d.try_transact_mut none with
  | .ok r => .ok r
  | .error _ => .error .AnotherTx

/-- Model of `collection.rs::Integrated::mutably` with no caller-supplied
transaction: opens an implicit mutable transaction via `transact_mut`,
resolves the handle (`RefDisposed` when the node is gone), lets the closure
buffer its changes, and lets the implicit transaction commit when it is
dropped at the end of the call. -/
def Integrated.mutablyImplicit (alive : Bool) (ops : List Change) (d : DocM) :
    Except Error DocM :=
  match Integrated.transact_mut d with
  | .error e => .error e
  | .ok (raw, d1) =>
    if alive then
      let raw1 := { raw with pending := raw.pending ++ ops }
      .ok ((raw1.commitRaw d1).releaseBorrow)
    else
      .error .RefDisposed

/-! ## Diff encoding (`transaction.rs::diff_v1` / `diff_v2`)

`StateVector::decode_v1` and `TransactionMut::encode_diff_v1` belong to the
engine and are taken as parameters; both boundary functions are translated
from their own source bodies. -/

/-- Model of `transaction.rs::YTransaction::diff_v1`: decode the supplied
state vector with the engine's lib0 v1 decoder, then encode the diff with
the engine's lib0 v1 encoder; a decode failure becomes `InvalidData`. -/
def YTransaction.diff_v1 {σ SV : Type} (decode_v1 : List Nat → Except String SV)
    (encode_diff_v1 : σ → SV → List Nat) (store : σ) (vector : List Nat) :
    Except Error (List Nat) :=
  match decode_v1 vector with
  | .ok sv => .ok (encode_diff_v1 store sv)
  | .error e => .error (.InvalidData e)

/-- Model of `transaction.rs::YTransaction::diff_v2`: its body also calls
`StateVector::decode_v1` and `encode_diff_v1` (not the v2 codecs). -/
def YTransaction.diff_v2 {σ SV : Type} (decode_v1 : List Nat → Except String SV)
    (encode_diff_v1 : σ → SV → List Nat) (store : σ) (vector : List Nat) :
    Except Error (List Nat) :=
  match decode_v1 vector with
  | .ok sv => .ok (encode_diff_v1 store sv)
  | .error e => .error (.InvalidData e)

/-! ## Shared XML / text values (`xml.rs`, `xml_elem.rs`, `xml_frag.rs`,
`xml_text.rs`, `text.rs`)

The externally visible handles (`YXmlElement`, `YXmlFragment`, `YXmlText`,
`YText`) are reference-counted pointers to a mutable cell holding a
`SharedCollection`; object identity matters here (claim C1), so the model
carries an explicit heap: `cells` maps a cell id (the `Arc` identity) to the
cell's current `SharedCollection` state, and `nodes` models the engine's
live node store (branches).  Every engine call is appended to `log`, tagged
with the transaction it ran under.  Buffered text is a `List Char` (UTF
offset handling is out of scope for the spec). -/

abbrev CellId := Nat
abbrev NodeId := Nat

/-- Kinds of live engine nodes (plus the plain `TextRef` of `text.rs`). -/
inductive NodeKind where
  | element
  | fragment
  | text
  | plainText
deriving Repr, DecidableEq

/-- Model of `xml.rs::YXmlChild`: a tagged handle (an `Arc` to one of the
three XML shared types), identified by its heap cell. -/
inductive YXmlChild where
  | element (c : CellId)
  | fragment (c : CellId)
  | text (c : CellId)
deriving Repr, DecidableEq

/-- The heap cell a `YXmlChild` handle points at. -/
def YXmlChild.cell : YXmlChild → CellId
  | .element c => c
  | .fragment c => c
  | .text c => c

/-- The node kind of a `YXmlChild`' (what `xml.rs::type_ref` reports). -/
def YXmlChild.kind : YXmlChild → NodeKind
  | .element _ => .element
  | .fragment _ => .fragment
  | .text _ => .text

/-- Model of `xml_text.rs::PrelimXmlText`: the buffered payload of a
preliminary XML text. -/
structure PrelimXmlText where
  text : List Char
  attributes : List (String × YValue)

/-- Model of `xml_elem.rs::PrelimXmElement`: the buffered payload of a
preliminary XML element. -/
structure PrelimXmElement where
  name : String
  attributes : List (String × YValue)
  children : List YXmlChild

/-- The state stored in a handle's cell: a `SharedCollection` of the proper
shared type (`Prelim` carrying the buffered payload, or `Integrated`
carrying the resolvable branch id). -/
inductive CellState where
  | prelimText (p : PrelimXmlText)
  | prelimElem (p : PrelimXmElement)
  | prelimFrag (children : List YXmlChild)
  | prelimPlain (s : List Char)
  | integText (n : NodeId)
  | integElem (n : NodeId)
  | integFrag (n : NodeId)
  | integPlain (n : NodeId)

/-- Model of `collection.rs::SharedCollection::is_prelim`: an O(1) variant
check. -/
def CellState.isPrelim : CellState → Bool
  | .prelimText _ => true
  | .prelimElem _ => true
  | .prelimFrag _ => true
  | .prelimPlain _ => true
  | _ => false

/-- A live engine node (a yrs branch): kind, element tag, attribute map,
text content, applied format runs, child links and parent link. -/
structure Node where
  kind : NodeKind
  tag : String
  attrs : List (String × YValue)
  text : List Char
  fmts : List (Nat × Nat × List (String × AnyV))
  children : List NodeId
  parent : Option NodeId

/-- One engine call, tagged with the transaction it ran under. -/
inductive EngineCall where
  | appendChild (txn : Nat) (parent : NodeId) (child : NodeId) (k : NodeKind)
  | insertChildAt (txn : Nat) (parent : NodeId) (idx : Nat) (child : NodeId) (k : NodeKind)
  | insertText (txn : Nat) (n : NodeId) (idx : Nat) (s : List Char)
  | insertAttr (txn : Nat) (n : NodeId) (name : String) (v : YValue)
  | removeAttr (txn : Nat) (n : NodeId) (name : String)
  | removeRange (txn : Nat) (n : NodeId) (idx len : Nat)
  | formatRange (txn : Nat) (n : NodeId) (idx len : Nat)

/-- The transaction tag of an engine call. -/
def EngineCall.txnOf : EngineCall → Nat
  | .appendChild t _ _ _ => t
  | .insertChildAt t _ _ _ _ => t
  | .insertText t _ _ _ => t
  | .insertAttr t _ _ _ => t
  | .removeAttr t _ _ => t
  | .removeRange t _ _ _ => t
  | .formatRange t _ _ _ => t

/-- Whether a call appends a child to node `n` (a `push_back` on `n`). -/
def EngineCall.isAppendTo (n : NodeId) : EngineCall → Bool
  | .appendChild _ p _ _ => p = n
  | _ => false

/-- Whether a call sets an attribute on node `n`. -/
def EngineCall.isAttrOn (n : NodeId) : EngineCall → Bool
  | .insertAttr _ p _ _ => p = n
  | _ => false

/-- The kind recorded by an append call (`none` for other calls). -/
def EngineCall.appendKind : EngineCall → Option NodeKind
  | .appendChild _ _ _ k => some k
  | _ => none

/-- Association-list get with `Nat` keys (first binding wins). -/
def assocGet {α : Type} (k : Nat) : List (Nat × α) → Option α
  | [] => none
  | (k1, v) :: rest => if k1 = k then some v else assocGet k rest

/-- Association-list update of an existing key (writing through an existing
`Arc`/`RefCell`; absent keys are untouched, matching the fact that Rust can
only write through a live reference). -/
def assocSet {α : Type} (k : Nat) (v : α) : List (Nat × α) → List (Nat × α)
  | [] => []
  | (k1, v1) :: rest =>
    if k1 = k then (k1, v) :: rest else (k1, v1) :: assocSet k v rest

/-- Overwrite-or-append update of a string-keyed attribute map (the content
semantics of `HashMap::insert`). -/
def attrsPut (name : String) (v : YValue) :
    List (String × YValue) → List (String × YValue)
  | [] => [(name, v)]
  | (k, v1) :: rest =>
    if k = name then (k, v) :: rest else (k, v1) :: attrsPut name v rest

/-- Remove a key from a string-keyed attribute map (`HashMap::remove`). -/
def attrsDrop (name : String) :
    List (String × YValue) → List (String × YValue)
  | [] => []
  | (k, v1) :: rest =>
    if k = name then rest else (k, v1) :: attrsDrop name rest

/-- Insertion of a chunk at an index (`String::insert_str` /
`Vec::insert`-style splicing, for in-bounds indices). -/
def spliceIn {α : Type} (i : Nat) (chunk : List α) (s : List α) : List α :=
  s.take i ++ chunk ++ s.drop i

/-- Removal of `len` items starting at `i` (`drain(i..i+len)` /
`remove_range`, for in-bounds ranges). -/
def spliceOut {α : Type} (i len : Nat) (s : List α) : List α :=
  s.take i ++ s.drop (i + len)

/-- The whole model state: the handle heap, the engine node store and the
engine-call log. -/
structure Store where
  cells : List (CellId × CellState)
  nextCell : CellId
  nodes : List (NodeId × Node)
  nextNode : NodeId
  log : List EngineCall

/-- Read a handle cell. -/
def Store.getCell (st : Store) (c : CellId) : Option CellState :=
  assocGet c st.cells

/-- Write through a handle cell (an in-place `mem::replace` /
`borrow_mut` assignment). -/
def Store.setCell (st : Store) (c : CellId) (s : CellState) : Store :=
  { st with cells := assocSet c s st.cells }

/-- Allocate a fresh handle cell (an `Arc::new` of a shared type). -/
def Store.allocCell (st : Store) (s : CellState) : CellId × Store :=
  (st.nextCell,
   { st with cells := st.cells ++ [(st.nextCell, s)], nextCell := st.nextCell + 1 })

/-- Read a live engine node (hook resolution: `none` models a disposed
branch). -/
def Store.getNode (st : Store) (n : NodeId) : Option Node :=
  assocGet n st.nodes

/-- Update a live engine node. -/
def Store.setNode (st : Store) (n : NodeId) (nd : Node) : Store :=
  { st with nodes := assocSet n nd st.nodes }

/-- Engine primitive: set an attribute on a live node
(`insert_attribute`). -/
def Store.engineInsertAttr (st : Store) (txn : Nat) (n : NodeId)
    (name : String) (v : YValue) : Store :=
  let st1 := match st.getNode n with
    | some nd => st.setNode n { nd with attrs := attrsPut name v nd.attrs }
    | none => st
  { st1 with log := st1.log ++ [.insertAttr txn n name v] }

/-- Engine primitive: remove an attribute from a live node
(`remove_attribute`). -/
def Store.engineRemoveAttr (st : Store) (txn : Nat) (n : NodeId)
    (name : String) : Store :=
  let st1 := match st.getNode n with
    | some nd => st.setNode n { nd with attrs := attrsDrop name nd.attrs }
    | none => st
  { st1 with log := st1.log ++ [.removeAttr txn n name] }

/-- Engine primitive: insert a chunk into a node's text (`insert`). -/
def Store.engineInsertText (st : Store) (txn : Nat) (n : NodeId)
    (idx : Nat) (chunk : List Char) : Store :=
  let st1 := match st.getNode n with
    | some nd => st.setNode n { nd with text := spliceIn idx chunk nd.text }
    | none => st
  { st1 with log := st1.log ++ [.insertText txn n idx chunk] }

/-- Engine primitive: remove a range from a node (`remove_range`; for text
nodes it drops characters, for element/fragment nodes child links). -/
def Store.engineRemoveRange (st : Store) (txn : Nat) (n : NodeId)
    (idx len : Nat) : Store :=
  let st1 := match st.getNode n with
    | some nd =>
      match nd.kind with
      | .text => st.setNode n { nd with text := spliceOut idx len nd.text }
      | .plainText => st.setNode n { nd with text := spliceOut idx len nd.text }
      | _ => st.setNode n { nd with children := spliceOut idx len nd.children }
    | none => st
  { st1 with log := st1.log ++ [.removeRange txn n idx len] }

/-- Engine primitive: apply a format run to a text node (`format`). -/
def Store.engineFormat (st : Store) (txn : Nat) (n : NodeId)
    (idx len : Nat) (attrs : List (String × AnyV)) : Store :=
  let st1 := match st.getNode n with
    | some nd => st.setNode n { nd with fmts := nd.fmts ++ [(idx, len, attrs)] }
    | none => st
  { st1 with log := st1.log ++ [.formatRange txn n idx len] }

/-- Engine step of `push_back`/`insert` with a `Prelim` argument: the engine
creates a branch of the kind announced by `xml.rs::type_ref` (`into_content`)
and links it under the parent; integration of the payload follows
separately. -/
def Store.engineAllocLinked (st : Store) (txn : Nat) (p : NodeId)
    (pos : Option Nat) (k : NodeKind) (tag : String) : NodeId × Store :=
  let n := st.nextNode
  let nd : Node :=
    { kind := k, tag := tag, attrs := [], text := [], fmts := [],
      children := [], parent := some p }
  let st1 := { st with nodes := st.nodes ++ [(n, nd)], nextNode := n + 1 }
  let st2 := match st1.getNode p with
    | some pn =>
      match pos with
      | none => st1.setNode p { pn with children := pn.children ++ [n] }
      | some i => st1.setNode p { pn with children := spliceIn i [n] pn.children }
    | none => st1
  let entry := match pos with
    | none => EngineCall.appendChild txn p n k
    | some i => EngineCall.insertChildAt txn p i n k
  (n, { st2 with log := st2.log ++ [entry] })

/-- Model of `xml.rs::YXmlChild::type_ref`: the tag the engine branch is
created with; for an element it reads the buffered name (the source panics
on an already-integrated element — unreachable behind
`assert_xml_prelim`). -/
def Store.typeRefTag (st : Store) (ch : YXmlChild) : String :=
  match ch with
  | .element c =>
    match st.getCell c with
    | some (.prelimElem p) => p.name
    | _ => ""
  | _ => ""

mutual

/-- Model of `xml.rs::YXmlChild::integrate`: called by the engine on node
`n` freshly created for `child`.  The source performs
`std::mem::replace(&mut cell, Arc::new(.. Integrated ..))` on the LOCAL
binding `cell`, i.e. it allocates a brand-new handle object holding the
`Integrated` variant — the caller-visible cell `child.cell` is never
written.  The old payload is then replayed into the live node: for a text,
text then attributes; for an element, children then attributes; for a
fragment, children only.  Recursive children go through the engine's
`push_back` with the same transaction. -/
def ychildIntegrate (fuel : Nat) (txn : Nat) (child : YXmlChild) (n : NodeId)
    (st : Store) : Store :=
  match fuel with
  | 0 => st
  | fuel + 1 =>
    match child with
    | .text c =>
      let (_, st1) := st.allocCell (.integText n)
      match st1.getCell c with
      | some (.prelimText raw) =>
        let st2 := st1.engineInsertText txn n 0 raw.text
        raw.attributes.foldl (fun acc kv => acc.engineInsertAttr txn n kv.1 kv.2) st2
      | _ => st1
    | .element c =>
      let (_, st1) := st.allocCell (.integElem n)
      match st1.getCell c with
      | some (.prelimElem raw) =>
        let st2 := raw.children.foldl
          (fun acc ch => engineLinkChild fuel txn n none ch acc) st1
        raw.attributes.foldl (fun acc kv => acc.engineInsertAttr txn n kv.1 kv.2) st2
      | _ => st1
    | .fragment c =>
      let (_, st1) := st.allocCell (.integFrag n)
      match st1.getCell c with
      | some (.prelimFrag raw) =>
        raw.foldl (fun acc ch => engineLinkChild fuel txn n none ch acc) st1
      | _ => st1
termination_by (fuel, 0)

/-- Engine `push_back` (`pos = none`) or `insert` (`pos = some i`) of a
`YXmlChild` under live node `p`: create and link the branch
(`into_content`), then hand it to `YXmlChild::integrate`. -/
def engineLinkChild (fuel : Nat) (txn : Nat) (p : NodeId) (pos : Option Nat)
    (ch : YXmlChild) (st : Store) : Store :=
  let tag := st.typeRefTag ch
  let (n, st1) := st.engineAllocLinked txn p pos ch.kind tag
  ychildIntegrate fuel txn ch n st1
termination_by (fuel, 1)

end

/-! ## In-place integration methods

`xml_elem.rs::YXmlElement::integrate`, `xml_text.rs::YXmlText::integrate`
and `xml_frag.rs::YXmlFragment::integrate` perform the `mem::replace` on the
SHARED cell (`self.0.borrow_mut()` / `self.0.write()`), so the caller-visible
handle itself flips to `Integrated`; the old payload is replayed exactly as
in `YXmlChild::integrate` (children before attributes).  The repository
currently has no call sites for these methods. -/

/-- Model of `xml_elem.rs::YXmlElement::integrate` (in-place variant). -/
def YXmlElement.integrate (fuel txn : Nat) (self : CellId) (n : NodeId)
    (st : Store) : Store :=
  match st.getCell self with
  | some (.prelimElem raw) =>
    let st2 := raw.children.foldl
      (fun acc ch => engineLinkChild fuel txn n none ch acc)
      (st.setCell self (.integElem n))
    raw.attributes.foldl (fun acc kv => acc.engineInsertAttr txn n kv.1 kv.2) st2
  | _ => st.setCell self (.integElem n)

/-- Model of `xml_text.rs::YXmlText::integrate` (in-place variant). -/
def YXmlText.integrate (txn : Nat) (self : CellId) (n : NodeId)
    (st : Store) : Store :=
  match st.getCell self with
  | some (.prelimText raw) =>
    let st2 := (st.setCell self (.integText n)).engineInsertText txn n 0 raw.text
    raw.attributes.foldl (fun acc kv => acc.engineInsertAttr txn n kv.1 kv.2) st2
  | _ => st.setCell self (.integText n)

/-- Model of `xml_frag.rs::YXmlFragment::integrate` (in-place variant). -/
def YXmlFragment.integrate (fuel txn : Nat) (self : CellId) (n : NodeId)
    (st : Store) : Store :=
  match st.getCell self with
  | some (.prelimFrag raw) =>
    raw.foldl (fun acc ch => engineLinkChild fuel txn n none ch acc)
      (st.setCell self (.integFrag n))
  | _ => st.setCell self (.integFrag n)

/-! ## Boundary methods

Mutating operations return `(new store, optional error)`; an early `?`
return in the source leaves the store exactly as it was.  The `txn`
argument is the tag of the transaction the call runs under (explicit or
implicit — the single-writer discipline itself is modelled with `DocM`
above); `fuel` bounds the recursion depth of nested integration. -/

/-- Model of `xml.rs::YXmlChild::assert_xml_prelim`: the pre-check run
before any mutation by every child insertion. -/
def Store.assertXmlPrelim (st : Store) (ch : YXmlChild) : Option Error :=
  let prelim := match st.getCell ch.cell with
    | some s => s.isPrelim
    | none => true
  if prelim then none else some .NotPrelim

/-- Model of `xml_elem.rs::YXmlElement::push`: pre-check the child, then
either buffer it (preliminary parent) or `push_back` it into the live node
(integrated parent, resolving the hook first). -/
def YXmlElement.push (fuel txn : Nat) (self : CellId) (xml_node : YXmlChild)
    (st : Store) : Store × Option Error :=
  match st.assertXmlPrelim xml_node with
  | some e => (st, some e)
  | none =>
    match st.getCell self with
    | some (.prelimElem p) =>
      (st.setCell self (.prelimElem { p with children := p.children ++ [xml_node] }),
       none)
    | some (.integElem n) =>
      match st.getNode n with
      | none => (st, some .RefDisposed)
      | some _ => (engineLinkChild fuel txn n none xml_node st, none)
    | _ => (st, some (.Custom "unreachable"))

/-- Model of `xml_elem.rs::YXmlElement::insert`: as `push`, at an index. -/
def YXmlElement.insert (fuel txn : Nat) (self : CellId) (index : Nat)
    (xml_node : YXmlChild) (st : Store) : Store × Option Error :=
  match st.assertXmlPrelim xml_node with
  | some e => (st, some e)
  | none =>
    match st.getCell self with
    | some (.prelimElem p) =>
      (st.setCell self
        (.prelimElem { p with children := spliceIn index [xml_node] p.children }),
       none)
    | some (.integElem n) =>
      match st.getNode n with
      | none => (st, some .RefDisposed)
      | some _ => (engineLinkChild fuel txn n (some index) xml_node st, none)
    | _ => (st, some (.Custom "unreachable"))

/-- Model of `xml_elem.rs::YXmlElement::delete`: drain a child range from
the buffer, or `remove_range` on the live node. -/
def YXmlElement.delete (txn : Nat) (self : CellId) (index len : Nat)
    (st : Store) : Store × Option Error :=
  match st.getCell self with
  | some (.prelimElem p) =>
    (st.setCell self (.prelimElem { p with children := spliceOut index len p.children }),
     none)
  | some (.integElem n) =>
    match st.getNode n with
    | none => (st, some .RefDisposed)
    | some _ => (st.engineRemoveRange txn n index len, none)
  | _ => (st, some (.Custom "unreachable"))

/-- Model of `xml_elem.rs::YXmlElement::set_attribute`. -/
def YXmlElement.set_attribute (txn : Nat) (self : CellId) (name : String)
    (v : YValue) (st : Store) : Store × Option Error :=
  match st.getCell self with
  | some (.prelimElem p) =>
    (st.setCell self (.prelimElem { p with attributes := attrsPut name v p.attributes }),
     none)
  | some (.integElem n) =>
    match st.getNode n with
    | none => (st, some .RefDisposed)
    | some _ => (st.engineInsertAttr txn n name v, none)
  | _ => (st, some (.Custom "unreachable"))

/-- Model of `xml_elem.rs::YXmlElement::remove_attribute`. -/
def YXmlElement.remove_attribute (txn : Nat) (self : CellId) (name : String)
    (st : Store) : Store × Option Error :=
  match st.getCell self with
  | some (.prelimElem p) =>
    (st.setCell self (.prelimElem { p with attributes := attrsDrop name p.attributes }),
     none)
  | some (.integElem n) =>
    match st.getNode n with
    | none => (st, some .RefDisposed)
    | some _ => (st.engineRemoveAttr txn n name, none)
  | _ => (st, some (.Custom "unreachable"))

/-- What `xml.rs::YXmlChild::from_xml` wraps: the kind and branch of the
live node a navigation read returns (a fresh handle is allocated around
exactly this data). -/
abbrev NavResult := Option (NodeKind × NodeId)

/-- Position of node `n` among its parent's children, with the parent. -/
def Store.siblingIndex (st : Store) (n : NodeId) : Option (Node × Nat) :=
  match st.getNode n with
  | none => none
  | some nd =>
    match nd.parent with
    | none => none
    | some p =>
      match st.getNode p with
      | none => none
      | some pn =>
        match pn.children.indexOf? n with
        | none => none
        | some i => (pn, i)

/-- The kind/branch pair of node `m` as a navigation result. -/
def Store.navOf (st : Store) (m : NodeId) : NavResult :=
  match st.getNode m with
  | none => none
  | some nd => some (nd.kind, m)

/-- Model of `xml_elem.rs::YXmlElement::next_sibling` (same code shape in
`xml_text.rs`): preliminary values fail with `InvalidPrelimOp`; integrated
values resolve the hook and look one step right among the siblings. -/
def xmlNextSibling (self : CellId) (st : Store) : Except Error NavResult :=
  match st.getCell self with
  | some (.prelimText _) => .error .InvalidPrelimOp
  | some (.prelimElem _) => .error .InvalidPrelimOp
  | some (.prelimFrag _) => .error .InvalidPrelimOp
  | some (.integText n) | some (.integElem n) | some (.integFrag n) =>
    match st.getNode n with
    | none => .error .RefDisposed
    | some _ =>
      match st.siblingIndex n with
      | none => .ok none
      | some (pn, i) =>
        match pn.children.get? (i + 1) with
        | none => .ok none
        | some m => .ok (st.navOf m)
  | _ => .error (.Custom "unreachable")

/-- Model of `xml_elem.rs::YXmlElement::prev_sibling` (same code shape in
`xml_text.rs`). -/
def xmlPrevSibling (self : CellId) (st : Store) : Except Error NavResult :=
  match st.getCell self with
  | some (.prelimText _) => .error .InvalidPrelimOp
  | some (.prelimElem _) => .error .InvalidPrelimOp
  | some (.prelimFrag _) => .error .InvalidPrelimOp
  | some (.integText n) | some (.integElem n) | some (.integFrag n) =>
    match st.getNode n with
    | none => .error .RefDisposed
    | some _ =>
      match st.siblingIndex n with
      | none => .ok none
      | some (pn, i) =>
        match i with
        | 0 => .ok none
        | j + 1 =>
          match pn.children.get? j with
          | none => .ok none
          | some m => .ok (st.navOf m)
  | _ => .error (.Custom "unreachable")

/-- Model of `xml_elem.rs::YXmlElement::parent` (same code shape in
`xml_text.rs`). -/
def xmlParent (self : CellId) (st : Store) : Except Error NavResult :=
  match st.getCell self with
  | some (.prelimText _) => .error .InvalidPrelimOp
  | some (.prelimElem _) => .error .InvalidPrelimOp
  | some (.prelimFrag _) => .error .InvalidPrelimOp
  | some (.integText n) | some (.integElem n) | some (.integFrag n) =>
    match st.getNode n with
    | none => .error .RefDisposed
    | some nd =>
      match nd.parent with
      | none => .ok none
      | some p => .ok (st.navOf p)
  | _ => .error (.Custom "unreachable")

/-- Model of `xml_frag.rs::YXmlFragment::push`. -/
def YXmlFragment.push (fuel txn : Nat) (self : CellId) (xml_node : YXmlChild)
    (st : Store) : Store × Option Error :=
  match st.assertXmlPrelim xml_node with
  | some e => (st, some e)
  | none =>
    match st.getCell self with
    | some (.prelimFrag cs) =>
      (st.setCell self (.prelimFrag (cs ++ [xml_node])), none)
    | some (.integFrag n) =>
      match st.getNode n with
      | none => (st, some .RefDisposed)
      | some _ => (engineLinkChild fuel txn n none xml_node st, none)
    | _ => (st, some (.Custom "unreachable"))

/-- Model of `xml_frag.rs::YXmlFragment::insert`. -/
def YXmlFragment.insert (fuel txn : Nat) (self : CellId) (index : Nat)
    (xml_node : YXmlChild) (st : Store) : Store × Option Error :=
  match st.assertXmlPrelim xml_node with
  | some e => (st, some e)
  | none =>
    match st.getCell self with
    | some (.prelimFrag cs) =>
      (st.setCell self (.prelimFrag (spliceIn index [xml_node] cs)), none)
    | some (.integFrag n) =>
      match st.getNode n with
      | none => (st, some .RefDisposed)
      | some _ => (engineLinkChild fuel txn n (some index) xml_node st, none)
    | _ => (st, some (.Custom "unreachable"))

/-- Model of `xml_frag.rs::YXmlFragment::delete`. -/
def YXmlFragment.delete (txn : Nat) (self : CellId) (index len : Nat)
    (st : Store) : Store × Option Error :=
  match st.getCell self with
  | some (.prelimFrag cs) =>
    (st.setCell self (.prelimFrag (spliceOut index len cs)), none)
  | some (.integFrag n) =>
    match st.getNode n with
    | none => (st, some .RefDisposed)
    | some _ => (st.engineRemoveRange txn n index len, none)
  | _ => (st, some (.Custom "unreachable"))

/-! XML text methods (`xml_text.rs`); attribute maps arrive on this
interface already typed (`Option<HashMap<String, YValue>>`). -/

/-- Model of `xml_text.rs::YXmlText::insert`: a preliminary text accepts a
plain chunk into its buffer but rejects formatted insertion with
`InvalidPrelimOp`; an integrated one resolves and calls the engine. -/
def YXmlText.insert (txn : Nat) (self : CellId) (index : Nat)
    (chunk : List Char) (attributes : Option (List (String × YValue)))
    (st : Store) : Store × Option Error :=
  match st.getCell self with
  | some (.prelimText p) =>
    match attributes with
    | none =>
      (st.setCell self (.prelimText { p with text := spliceIn index chunk p.text }),
       none)
    | some _ => (st, some .InvalidPrelimOp)
  | some (.integText n) =>
    match st.getNode n with
    | none => (st, some .RefDisposed)
    | some _ =>
      match attributes with
      | none => (st.engineInsertText txn n index chunk, none)
      | some attrs =>
        -- insert_with_attributes: the chunk lands in the node and the run is
        -- recorded as a format over it
        let st1 := st.engineInsertText txn n index chunk
        (st1.engineFormat txn n index chunk.length
          (attrs.map (fun kv => (kv.1, from_yvalue kv.2))), none)
  | _ => (st, some (.Custom "unreachable"))

/-- Model of `xml_text.rs::YXmlText::push`: append at the end. -/
def YXmlText.push (txn : Nat) (self : CellId) (chunk : List Char)
    (attributes : Option (List (String × YValue))) (st : Store) :
    Store × Option Error :=
  match st.getCell self with
  | some (.prelimText p) =>
    match attributes with
    | none =>
      (st.setCell self (.prelimText { p with text := p.text ++ chunk }), none)
    | some _ => (st, some .InvalidPrelimOp)
  | some (.integText n) =>
    match st.getNode n with
    | none => (st, some .RefDisposed)
    | some nd =>
      match attributes with
      | none => (st.engineInsertText txn n nd.text.length chunk, none)
      | some attrs =>
        let len := nd.text.length
        let st1 := st.engineInsertText txn n len chunk
        (st1.engineFormat txn n len chunk.length
          (attrs.map (fun kv => (kv.1, from_yvalue kv.2))), none)
  | _ => (st, some (.Custom "unreachable"))

/-- Model of `xml_text.rs::YXmlText::delete`. -/
def YXmlText.delete (txn : Nat) (self : CellId) (index len : Nat)
    (st : Store) : Store × Option Error :=
  match st.getCell self with
  | some (.prelimText p) =>
    (st.setCell self (.prelimText { p with text := spliceOut index len p.text }),
     none)
  | some (.integText n) =>
    match st.getNode n with
    | none => (st, some .RefDisposed)
    | some _ => (st.engineRemoveRange txn n index len, none)
  | _ => (st, some (.Custom "unreachable"))

/-- Model of `xml_text.rs::YXmlText::format`: missing attributes are
`InvalidFmt` before any state dispatch; a preliminary text always fails
with `InvalidPrelimOp`; an integrated one formats the live range. -/
def YXmlText.format (txn : Nat) (self : CellId) (index len : Nat)
    (attributes : Option (List (String × YValue))) (st : Store) :
    Store × Option Error :=
  match attributes with
  | none => (st, some .InvalidFmt)
  | some attrs =>
    match st.getCell self with
    | some (.prelimText _) => (st, some .InvalidPrelimOp)
    | some (.integText n) =>
      match st.getNode n with
      | none => (st, some .RefDisposed)
      | some _ =>
        (st.engineFormat txn n index len
          (attrs.map (fun kv => (kv.1, from_yvalue kv.2))), none)
    | _ => (st, some (.Custom "unreachable"))

/-- Model of `xml_text.rs::YXmlText::set_attribute`. -/
def YXmlText.set_attribute (txn : Nat) (self : CellId) (name : String)
    (v : YValue) (st : Store) : Store × Option Error :=
  match st.getCell self with
  | some (.prelimText p) =>
    (st.setCell self (.prelimText { p with attributes := attrsPut name v p.attributes }),
     none)
  | some (.integText n) =>
    match st.getNode n with
    | none => (st, some .RefDisposed)
    | some _ => (st.engineInsertAttr txn n name v, none)
  | _ => (st, some (.Custom "unreachable"))

/-- Model of `xml_text.rs::YXmlText::remove_attribute`. -/
def YXmlText.remove_attribute (txn : Nat) (self : CellId) (name : String)
    (st : Store) : Store × Option Error :=
  match st.getCell self with
  | some (.prelimText p) =>
    (st.setCell self (.prelimText { p with attributes := attrsDrop name p.attributes }),
     none)
  | some (.integText n) =>
    match st.getNode n with
    | none => (st, some .RefDisposed)
    | some _ => (st.engineRemoveAttr txn n name, none)
  | _ => (st, some (.Custom "unreachable"))

/-! Plain text methods (`text.rs`); attribute bags arrive as JSON strings
and go through `attrs.rs::parse_attrs`.  `yrs::Any::from_json` is an engine
primitive, so these functions receive the parse outcome of the supplied
JSON string. -/

/-- Model of `attrs.rs::map_attrs`: accept only a top-level map. -/
def map_attrs : AnyV → Option (List (String × AnyV))
  | .map m => some m
  | _ => none

/-- Model of `attrs.rs::parse_attrs` over the outcome of the engine's JSON
parser: `None` input passes through, a parse failure or a non-map top level
is `InvalidFmt`. -/
def parse_attrs (parsed : Option (Except String AnyV)) :
    Except Error (Option (List (String × AnyV))) :=
  match parsed with
  | none => .ok none
  | some (.error _) => .error .InvalidFmt
  | some (.ok any) =>
    match map_attrs any with
    | some attrs => .ok (some attrs)
    | none => .error .InvalidFmt

/-- Model of `text.rs::YText::insert`: parse the attribute bag first; a
preliminary text accepts a plain chunk into its buffer, rejects attributed
insertion with `InvalidPrelimOp`; an integrated one calls the engine. -/
def YText.insert (txn : Nat) (self : CellId) (index : Nat) (chunk : List Char)
    (attributes : Option (Except String AnyV)) (st : Store) :
    Store × Option Error :=
  match parse_attrs attributes with
  | .error e => (st, some e)
  | .ok parsedAttrs =>
    match st.getCell self with
    | some (.prelimPlain s) =>
      match parsedAttrs with
      | none => (st.setCell self (.prelimPlain (spliceIn index chunk s)), none)
      | some _ => (st, some .InvalidPrelimOp)
    | some (.integPlain n) =>
      match st.getNode n with
      | none => (st, some .RefDisposed)
      | some _ =>
        match parsedAttrs with
        | some attrs =>
          let st1 := st.engineInsertText txn n index chunk
          (st1.engineFormat txn n index chunk.length attrs, none)
        | none => (st.engineInsertText txn n index chunk, none)
    | _ => (st, some (.Custom "unreachable"))

/-- Model of `text.rs::YText::push`. -/
def YText.push (txn : Nat) (self : CellId) (chunk : List Char)
    (attributes : Option (Except String AnyV)) (st : Store) :
    Store × Option Error :=
  match parse_attrs attributes with
  | .error e => (st, some e)
  | .ok parsedAttrs =>
    match st.getCell self with
    | some (.prelimPlain s) =>
      match parsedAttrs with
      | some _ => (st, some .InvalidPrelimOp)
      | none => (st.setCell self (.prelimPlain (s ++ chunk)), none)
    | some (.integPlain n) =>
      match st.getNode n with
      | none => (st, some .RefDisposed)
      | some nd =>
        match parsedAttrs with
        | some attrs =>
          let len := nd.text.length
          let st1 := st.engineInsertText txn n len chunk
          (st1.engineFormat txn n len chunk.length attrs, none)
        | none => (st.engineInsertText txn n nd.text.length chunk, none)
    | _ => (st, some (.Custom "unreachable"))

/-- Model of `text.rs::YText::delete`. -/
def YText.delete (txn : Nat) (self : CellId) (index len : Nat) (st : Store) :
    Store × Option Error :=
  match st.getCell self with
  | some (.prelimPlain s) =>
    (st.setCell self (.prelimPlain (spliceOut index len s)), none)
  | some (.integPlain n) =>
    match st.getNode n with
    | none => (st, some .RefDisposed)
    | some _ => (st.engineRemoveRange txn n index len, none)
  | _ => (st, some (.Custom "unreachable"))

/-- Model of `text.rs::YText::format`: the attribute bag is mandatory and
parsed first (a non-map parse is `InvalidFmt`); then a preliminary text
fails with `InvalidPrelimOp` and an integrated one formats the live
range. -/
def YText.format (txn : Nat) (self : CellId) (index len : Nat)
    (attributes : Except String AnyV) (st : Store) : Store × Option Error :=
  match parse_attrs (some attributes) with
  | .error e => (st, some e)
  | .ok none => (st, some .InvalidFmt)
  | .ok (some attrs) =>
    match st.getCell self with
    | some (.prelimPlain _) => (st, some .InvalidPrelimOp)
    | some (.integPlain n) =>
      match st.getNode n with
      | none => (st, some .RefDisposed)
      | some _ => (st.engineFormat txn n index len attrs, none)
    | _ => (st, some (.Custom "unreachable"))

/-! ## Operations as data (for the state-machine invariants of claim C5) -/

/-- One boundary operation on the modelled surface. -/
inductive Op where
  | elemPush (self : CellId) (ch : YXmlChild)
  | elemInsert (self : CellId) (index : Nat) (ch : YXmlChild)
  | elemDelete (self : CellId) (index len : Nat)
  | elemSetAttr (self : CellId) (name : String) (v : YValue)
  | elemRemoveAttr (self : CellId) (name : String)
  | fragPush (self : CellId) (ch : YXmlChild)
  | fragInsert (self : CellId) (index : Nat) (ch : YXmlChild)
  | fragDelete (self : CellId) (index len : Nat)
  | xtextInsert (self : CellId) (index : Nat) (chunk : List Char)
      (attrs : Option (List (String × YValue)))
  | xtextPush (self : CellId) (chunk : List Char)
      (attrs : Option (List (String × YValue)))
  | xtextDelete (self : CellId) (index len : Nat)
  | xtextFormat (self : CellId) (index len : Nat)
      (attrs : Option (List (String × YValue)))
  | xtextSetAttr (self : CellId) (name : String) (v : YValue)
  | xtextRemoveAttr (self : CellId) (name : String)
  | ptextInsert (self : CellId) (index : Nat) (chunk : List Char)
      (attrs : Option (Except String AnyV))
  | ptextPush (self : CellId) (chunk : List Char)
      (attrs : Option (Except String AnyV))
  | ptextDelete (self : CellId) (index len : Nat)
  | ptextFormat (self : CellId) (index len : Nat) (attrs : Except String AnyV)
  | integrateElem (self : CellId) (n : NodeId)
  | integrateText (self : CellId) (n : NodeId)
  | integrateFrag (self : CellId) (n : NodeId)

/-- Whether an operation is part of the nested-preliminary integration
protocol (the only operations allowed to flip a handle to Integrated). -/
def Op.isIntegration : Op → Bool
  | .integrateElem _ _ => true
  | .integrateText _ _ => true
  | .integrateFrag _ _ => true
  | _ => false

/-- The store effect of one operation (mutators discard their error
component: an error leaves the store as it was). -/
def Op.apply (fuel txn : Nat) (op : Op) (st : Store) : Store :=
  match op with
  | .elemPush self ch => (YXmlElement.push fuel txn self ch st).1
  | .elemInsert self i ch => (YXmlElement.insert fuel txn self i ch st).1
  | .elemDelete self i l => (YXmlElement.delete txn self i l st).1
  | .elemSetAttr self name v => (YXmlElement.set_attribute txn self name v st).1
  | .elemRemoveAttr self name => (YXmlElement.remove_attribute txn self name st).1
  | .fragPush self ch => (YXmlFragment.push fuel txn self ch st).1
  | .fragInsert self i ch => (YXmlFragment.insert fuel txn self i ch st).1
  | .fragDelete self i l => (YXmlFragment.delete txn self i l st).1
  | .xtextInsert self i chunk attrs => (YXmlText.insert txn self i chunk attrs st).1
  | .xtextPush self chunk attrs => (YXmlText.push txn self chunk attrs st).1
  | .xtextDelete self i l => (YXmlText.delete txn self i l st).1
  | .xtextFormat self i l attrs => (YXmlText.format txn self i l attrs st).1
  | .xtextSetAttr self name v => (YXmlText.set_attribute txn self name v st).1
  | .xtextRemoveAttr self name => (YXmlText.remove_attribute txn self name st).1
  | .ptextInsert self i chunk attrs => (YText.insert txn self i chunk attrs st).1
  | .ptextPush self chunk attrs => (YText.push txn self chunk attrs st).1
  | .ptextDelete self i l => (YText.delete txn self i l st).1
  | .ptextFormat self i l attrs => (YText.format txn self i l attrs st).1
  | .integrateElem self n => YXmlElement.integrate fuel txn self n st
  | .integrateText self n => YXmlText.integrate txn self n st
  | .integrateFrag self n => YXmlFragment.integrate fuel txn self n st

/-- The node an engine call operates on (the parent for child-link calls). -/
def EngineCall.target : EngineCall → NodeId
  | .appendChild _ p _ _ => p
  | .insertChildAt _ p _ _ _ => p
  | .insertText _ n _ _ => n
  | .insertAttr _ n _ _ => n
  | .removeAttr _ n _ => n
  | .removeRange _ n _ _ => n
  | .formatRange _ n _ _ => n

/-- The log entry produced by linking a fresh child branch under `p`. -/
def linkEntry (pos : Option Nat) (txn : Nat) (p : NodeId) (n : NodeId)
    (k : NodeKind) : EngineCall :=
  match pos with
  | none => .appendChild txn p n k
  | some i => .insertChildAt txn p i n k

/-- Cell-variant preservation: every handle cell alive in `st` is still
alive in `st2` with the same `is_prelim` answer. -/
def CVP (st st2 : Store) : Prop :=
  ∀ c s, st.getCell c = some s →
    ∃ s', st2.getCell c = some s' ∧ s'.isPrelim = s.isPrelim

/-- Weak cell preservation: integrated-ness is never lost (an integration
method may flip its own cell from Preliminary to Integrated, never back). -/
def CVPW (st st2 : Store) : Prop :=
  ∀ c s, st.getCell c = some s →
    ∃ s', st2.getCell c = some s' ∧ (s.isPrelim = false → s'.isPrelim = false)

/-- Scan of a replay log: once a child has been appended to node `n`, no
later attribute write on `n` is allowed.  (`seen` records whether a child
append has been passed.) -/
def noAttrOnAfterChild (n : NodeId) : Bool → List EngineCall → Bool
  | _, [] => true
  | seen, e :: rest =>
    if e.isAppendTo n then noAttrOnAfterChild n true rest
    else if e.isAttrOn n && seen then false
    else noAttrOnAfterChild n seen rest

/-- Formalization of the ordering asserted by claim C2: in the replay log,
every attribute write on the freshly integrated node precedes every child
append to it. -/
def attrsReplayedBeforeChildren (n : NodeId) (log : List EngineCall) : Bool :=
  noAttrOnAfterChild n false log

/-! Concrete fixtures used by the counterexample and witness theorems. -/

/-- A live element node serving as an integrated parent. -/
def rootElemNode : Node :=
  { kind := .element, tag := "root", attrs := [], text := [], fmts := [],
    children := [], parent := none }

/-- Fixture: integrated element handle (cell 0, node 0) and a preliminary
XML text handle (cell 1) buffering the text "hi". -/
def c1Store : Store :=
  { cells := [(0, .integElem 0), (1, .prelimText ⟨"hi".toList, []⟩)],
    nextCell := 2, nodes := [(0, rootElemNode)], nextNode := 1, log := [] }

/-- Fixture: integrated element handle (cell 0, node 0), a preliminary
element (cell 5) with one attribute and one preliminary text child
(cell 6). -/
def c2Store : Store :=
  { cells := [(0, .integElem 0),
              (5, .prelimElem ⟨"div", [("class", .String "a")], [.text 6]⟩),
              (6, .prelimText ⟨"x".toList, []⟩)],
    nextCell := 7, nodes := [(0, rootElemNode)], nextNode := 1, log := [] }

/-- Fixture: a document with its mutable-transaction slot taken. -/
def busyDoc : DocM :=
  { busy := true, content := [] }

/-- Fixture: integrated element parent (cell 0) and an already-integrated
XML text handle (cell 1). -/
def c4Store : Store :=
  { cells := [(0, .integElem 0), (1, .integText 0)],
    nextCell := 2, nodes := [(0, rootElemNode)], nextNode := 1, log := [] }

/-- Fixture: a preliminary plain-text handle (cell 2) buffering "ab". -/
def c8Store : Store :=
  { cells := [(2, .prelimPlain "ab".toList)],
    nextCell := 3, nodes := [], nextNode := 0, log := [] }

/-- Fixture: a preliminary XML text handle (cell 4). -/
def c8xStore : Store :=
  { cells := [(4, .prelimText ⟨"cd".toList, [("a", .String "b")]⟩)],
    nextCell := 5, nodes := [], nextNode := 0, log := [] }

/-! Round-trip lemmas for the marshaller. -/

mutual

theorem into_from_yvalue (v : YValue) : into_yvalue (from_yvalue v) = v := by
  cases v with
  | Array xs => simp [from_yvalue, into_yvalue, into_from_yvalue_list xs]
  | AttrMap m => simp [from_yvalue, into_yvalue, into_from_yvalue_map m]
  | _ => rfl

theorem into_from_yvalue_list (xs : List YValue) :
    into_yvalue_list (from_yvalue_list xs) = xs := by
  cases xs with
  | nil => rfl
  | cons x xs =>
    simp [from_yvalue_list, into_yvalue_list, into_from_yvalue x,
      into_from_yvalue_list xs]

theorem into_from_yvalue_map (m : List (String × YValue)) :
    into_yattrs2 (from_yvalue_map m) = m := by
  cases m with
  | nil => rfl
  | cons kv rest =>
    cases kv with
    | mk k v =>
      simp [from_yvalue_map, into_yattrs2, into_from_yvalue v,
        into_from_yvalue_map rest]

end

mutual

theorem from_into_yvalue (a : AnyV) (h : a.noUndef = true) :
    from_yvalue (into_yvalue a) = a := by
  cases a with
  | array xs =>
    have hxs : AnyV.noUndefList xs = true := by
      simpa [AnyV.noUndef] using h
    simp [into_yvalue, from_yvalue, from_into_yvalue_list xs hxs]
  | map m =>
    have hm : AnyV.noUndefMap m = true := by
      simpa [AnyV.noUndef] using h
    simp [into_yvalue, from_yvalue, from_into_yvalue_map m hm]
  | undefined => exact absurd h (by simp [AnyV.noUndef])
  | _ => rfl

theorem from_into_yvalue_list (xs : List AnyV) (h : AnyV.noUndefList xs = true) :
    from_yvalue_list (into_yvalue_list xs) = xs := by
  cases xs with
  | nil => rfl
  | cons x xs =>
    have hx : x.noUndef = true := by
      have := h; simp [AnyV.noUndefList, Bool.and_eq_true] at this; exact this.1
    have hxs : AnyV.noUndefList xs = true := by
      have := h; simp [AnyV.noUndefList, Bool.and_eq_true] at this; exact this.2
    simp [into_yvalue_list, from_yvalue_list, from_into_yvalue x hx,
      from_into_yvalue_list xs hxs]

theorem from_into_yvalue_map (m : List (String × AnyV))
    (h : AnyV.noUndefMap m = true) :
    from_yvalue_map (into_yattrs2 m) = m := by
  cases m with
  | nil => rfl
  | cons kv rest =>
    cases kv with
    | mk k v =>
      have hv : v.noUndef = true := by
        have := h; simp [AnyV.noUndefMap, Bool.and_eq_true] at this; exact this.1
      have hrest : AnyV.noUndefMap rest = true := by
        have := h; simp [AnyV.noUndefMap, Bool.and_eq_true] at this; exact this.2
      simp [into_yattrs2, from_yvalue_map, from_into_yvalue v hv,
        from_into_yvalue_map rest hrest]

end

/-! ## Heap-preservation lemmas -/

theorem assocGet_append_left {α : Type} {k : Nat} {l l2 : List (Nat × α)}
    {v : α} (h : assocGet k l = some v) : assocGet k (l ++ l2) = some v := by
  induction l with
  | nil => simp [assocGet] at h
  | cons kv rest ih =>
    cases kv with
    | mk k1 v1 =>
      by_cases hk : k1 = k
      · simp [assocGet, hk] at h ⊢; exact h
      · simp [assocGet, hk] at h ⊢; exact ih h

theorem assocGet_assocSet_self {α : Type} {k : Nat} {l : List (Nat × α)}
    {v w : α} (h : assocGet k l = some v) :
    assocGet k (assocSet k w l) = some w := by
  induction l with
  | nil => simp [assocGet] at h
  | cons kv rest ih =>
    cases kv with
    | mk k1 v1 =>
      by_cases hk : k1 = k
      · simp [assocGet, assocSet, hk]
      · simp [assocGet, assocSet, hk] at h ⊢; exact ih h

theorem assocGet_assocSet_other {α : Type} {k k2 : Nat} {l : List (Nat × α)}
    {w : α} (h : k2 ≠ k) :
    assocGet k (assocSet k2 w l) = assocGet k l := by
  induction l with
  | nil => simp [assocSet]
  | cons kv rest ih =>
    cases kv with
    | mk k1 v1 =>
      by_cases hk : k1 = k2
      · subst hk
        simp [assocSet, assocGet, h]
      · by_cases hk2 : k1 = k
        · subst hk2
          simp [assocSet, assocGet, hk]
        · simp [assocSet, assocGet, hk, hk2, ih]

/-- A `foldl` preserves any property each step preserves. -/
theorem foldl_pres {α σ : Type} {P : σ → Prop} {f : σ → α → σ}
    (hf : ∀ s a, P s → P (f s a)) :
    ∀ (l : List α) (s : σ), P s → P (l.foldl f s)
  | [], _, hs => hs
  | a :: l, s, hs => foldl_pres hf l (f s a) (hf s a hs)

theorem cells_engineInsertAttr (st : Store) (txn : Nat) (n : NodeId)
    (name : String) (v : YValue) :
    (st.engineInsertAttr txn n name v).cells = st.cells := by
  unfold Store.engineInsertAttr
  cases st.getNode n <;> simp [Store.setNode]

theorem cells_engineRemoveAttr (st : Store) (txn : Nat) (n : NodeId)
    (name : String) :
    (st.engineRemoveAttr txn n name).cells = st.cells := by
  unfold Store.engineRemoveAttr
  cases st.getNode n <;> simp [Store.setNode]

theorem cells_engineInsertText (st : Store) (txn : Nat) (n : NodeId)
    (idx : Nat) (chunk : List Char) :
    (st.engineInsertText txn n idx chunk).cells = st.cells := by
  unfold Store.engineInsertText
  cases st.getNode n <;> simp [Store.setNode]

theorem cells_engineRemoveRange (st : Store) (txn : Nat) (n : NodeId)
    (idx len : Nat) :
    (st.engineRemoveRange txn n idx len).cells = st.cells := by
  unfold Store.engineRemoveRange
  cases h : st.getNode n with
  | none => simp
  | some nd =>
    obtain ⟨kind, tag, attrs, text, fmts, children, parent⟩ := nd
    cases kind <;> simp [Store.setNode]

theorem cells_engineFormat (st : Store) (txn : Nat) (n : NodeId)
    (idx len : Nat) (attrs : List (String × AnyV)) :
    (st.engineFormat txn n idx len attrs).cells = st.cells := by
  unfold Store.engineFormat
  cases st.getNode n <;> simp [Store.setNode]

theorem cells_engineAllocLinked (st : Store) (txn : Nat) (p : NodeId)
    (pos : Option Nat) (k : NodeKind) (tag : String) :
    (st.engineAllocLinked txn p pos k tag).2.cells = st.cells := by
  unfold Store.engineAllocLinked
  cases h : assocGet p (st.nodes ++ [(st.nextNode,
      { kind := k, tag := tag, attrs := [], text := [], fmts := [],
        children := [], parent := some p })]) with
  | none => simp [Store.getNode, h]
  | some pn => cases pos <;> simp [Store.getNode, h, Store.setNode]

/-- Cell preservation through `getCell` for the attribute-replay fold. -/
theorem getCell_attrFold (txn : Nat) (n : NodeId)
    (l : List (String × YValue)) (st : Store) (c : CellId) (s : CellState)
    (h : st.getCell c = some s) :
    ((l.foldl (fun acc kv => acc.engineInsertAttr txn n kv.1 kv.2) st).getCell c)
      = some s := by
  refine foldl_pres (P := fun st2 => st2.getCell c = some s) ?_ l st h
  intro st2 kv h2
  simpa [Store.getCell, cells_engineInsertAttr] using h2

/-- Existing handle cells are never written by `YXmlChild::integrate`
(`xml.rs`): the local `mem::replace` only allocates a fresh cell, and the
engine replay touches nodes only.  Mutual statement with
`engineLinkChild`. -/
theorem getCell_ychildIntegrate_all (fuel : Nat) :
    (∀ txn ch n st c s, st.getCell c = some s →
      (ychildIntegrate fuel txn ch n st).getCell c = some s)
    ∧ (∀ txn p pos ch st c s, st.getCell c = some s →
      (engineLinkChild fuel txn p pos ch st).getCell c = some s) := by
  induction fuel with
  | zero =>
    constructor
    · intro txn ch n st c s h
      simpa [ychildIntegrate] using h
    · intro txn p pos ch st c s h
      have h2 : (st.engineAllocLinked txn p pos ch.kind (st.typeRefTag ch)).2.getCell c
          = some s := by
        simpa [Store.getCell, cells_engineAllocLinked] using h
      simpa [engineLinkChild, ychildIntegrate] using h2
  | succ fuel ih =>
    have hy : ∀ txn ch n st c s, st.getCell c = some s →
        (ychildIntegrate (fuel + 1) txn ch n st).getCell c = some s := by
      intro txn ch n st c s h
      have halloc : ∀ cs : CellState,
          (st.allocCell cs).2.getCell c = some s := by
        intro cs
        simpa [Store.allocCell, Store.getCell] using assocGet_append_left h
      cases ch with
      | text cc =>
        simp only [ychildIntegrate]
        cases hcc : (st.allocCell (.integText n)).2.getCell cc with
        | none => simpa [hcc] using halloc _
        | some s2 =>
          cases s2 with
          | prelimText raw =>
            simp only [hcc]
            have h1 : ((st.allocCell (.integText n)).2.engineInsertText txn n 0
                raw.text).getCell c = some s := by
              simpa [Store.getCell, cells_engineInsertText] using halloc _
            exact getCell_attrFold txn n raw.attributes _ c s h1
          | prelimElem raw => simpa [hcc] using halloc _
          | prelimFrag raw => simpa [hcc] using halloc _
          | prelimPlain raw => simpa [hcc] using halloc _
          | integText m => simpa [hcc] using halloc _
          | integElem m => simpa [hcc] using halloc _
          | integFrag m => simpa [hcc] using halloc _
          | integPlain m => simpa [hcc] using halloc _
      | element cc =>
        simp only [ychildIntegrate]
        cases hcc : (st.allocCell (.integElem n)).2.getCell cc with
        | none => simpa [hcc] using halloc _
        | some s2 =>
          cases s2 with
          | prelimElem raw =>
            simp only [hcc]
            have h1 : (raw.children.foldl
                (fun acc ch2 => engineLinkChild fuel txn n none ch2 acc)
                (st.allocCell (.integElem n)).2).getCell c = some s := by
              refine foldl_pres (P := fun (st2 : Store) => st2.getCell c = some s) ?_
                raw.children _ (halloc _)
              intro st2 ch2 h2
              exact ih.2 txn n none ch2 st2 c s h2
            exact getCell_attrFold txn n raw.attributes _ c s h1
          | prelimText raw => simpa [hcc] using halloc _
          | prelimFrag raw => simpa [hcc] using halloc _
          | prelimPlain raw => simpa [hcc] using halloc _
          | integText m => simpa [hcc] using halloc _
          | integElem m => simpa [hcc] using halloc _
          | integFrag m => simpa [hcc] using halloc _
          | integPlain m => simpa [hcc] using halloc _
      | fragment cc =>
        simp only [ychildIntegrate]
        cases hcc : (st.allocCell (.integFrag n)).2.getCell cc with
        | none => simpa [hcc] using halloc _
        | some s2 =>
          cases s2 with
          | prelimFrag raw =>
            simp only [hcc]
            refine foldl_pres (P := fun (st2 : Store) => st2.getCell c = some s) ?_
              raw _ (halloc _)
            intro st2 ch2 h2
            exact ih.2 txn n none ch2 st2 c s h2
          | prelimText raw => simpa [hcc] using halloc _
          | prelimElem raw => simpa [hcc] using halloc _
          | prelimPlain raw => simpa [hcc] using halloc _
          | integText m => simpa [hcc] using halloc _
          | integElem m => simpa [hcc] using halloc _
          | integFrag m => simpa [hcc] using halloc _
          | integPlain m => simpa [hcc] using halloc _
    refine ⟨hy, ?_⟩
    intro txn p pos ch st c s h
    have h2 : (st.engineAllocLinked txn p pos ch.kind (st.typeRefTag ch)).2.getCell c
        = some s := by
      simpa [Store.getCell, cells_engineAllocLinked] using h
    simpa [engineLinkChild] using hy txn ch _ _ c s h2

/-- Existing handle cells survive `engineLinkChild` untouched. -/
theorem getCell_engineLinkChild {fuel txn : Nat} {p : NodeId}
    {pos : Option Nat} {ch : YXmlChild} {st : Store} {c : CellId}
    {s : CellState} (h : st.getCell c = some s) :
    (engineLinkChild fuel txn p pos ch st).getCell c = some s :=
  (getCell_ychildIntegrate_all fuel).2 txn p pos ch st c s h

theorem cvp_refl (st : Store) : CVP st st :=
  fun _ s h => ⟨s, h, rfl⟩

theorem cvp_of_cellsEq {st st2 : Store} (h : st2.cells = st.cells) :
    CVP st st2 :=
  fun _ s hc => ⟨s, by simpa [Store.getCell, h] using hc, rfl⟩

theorem cvp_setCell {st : Store} {self : CellId} {sOld sNew : CellState}
    (hself : st.getCell self = some sOld)
    (hvar : sNew.isPrelim = sOld.isPrelim) :
    CVP st (st.setCell self sNew) := by
  intro c s hc
  by_cases hcs : c = self
  · subst hcs
    have hs : s = sOld := by rw [hc] at hself; exact Option.some.inj hself
    exact ⟨sNew, by
      simpa [Store.setCell, Store.getCell] using assocGet_assocSet_self hc,
      by rw [hvar, hs]⟩
  · exact ⟨s, by
      simpa [Store.setCell, Store.getCell] using
        (assocGet_assocSet_other (fun h2 => hcs h2.symm)).symm ▸ hc, rfl⟩

theorem cvp_linkChild {fuel txn : Nat} {p : NodeId} {pos : Option Nat}
    {ch : YXmlChild} {st : Store} :
    CVP st (engineLinkChild fuel txn p pos ch st) :=
  fun _ s hc => ⟨s, getCell_engineLinkChild hc, rfl⟩

theorem elemPush_cvp (fuel txn : Nat) (self : CellId) (ch : YXmlChild)
    (st : Store) : CVP st (YXmlElement.push fuel txn self ch st).1 := by
  unfold YXmlElement.push
  split
  · exact cvp_refl st
  · split
    · rename_i p heq
      exact cvp_setCell heq rfl
    · split
      · exact cvp_refl st
      · exact cvp_linkChild
    · exact cvp_refl st

theorem elemInsert_cvp (fuel txn : Nat) (self : CellId) (i : Nat)
    (ch : YXmlChild) (st : Store) :
    CVP st (YXmlElement.insert fuel txn self i ch st).1 := by
  unfold YXmlElement.insert
  split
  · exact cvp_refl st
  · split
    · rename_i p heq
      exact cvp_setCell heq rfl
    · split
      · exact cvp_refl st
      · exact cvp_linkChild
    · exact cvp_refl st

theorem elemDelete_cvp (txn : Nat) (self : CellId) (i l : Nat) (st : Store) :
    CVP st (YXmlElement.delete txn self i l st).1 := by
  unfold YXmlElement.delete
  split
  · rename_i p heq
    exact cvp_setCell heq rfl
  · split
    · exact cvp_refl st
    · exact cvp_of_cellsEq (by simp [cells_engineRemoveRange])
  · exact cvp_refl st

theorem elemSetAttr_cvp (txn : Nat) (self : CellId) (name : String)
    (v : YValue) (st : Store) :
    CVP st (YXmlElement.set_attribute txn self name v st).1 := by
  unfold YXmlElement.set_attribute
  split
  · rename_i p heq
    exact cvp_setCell heq rfl
  · split
    · exact cvp_refl st
    · exact cvp_of_cellsEq (by simp [cells_engineInsertAttr])
  · exact cvp_refl st

theorem elemRemoveAttr_cvp (txn : Nat) (self : CellId) (name : String)
    (st : Store) :
    CVP st (YXmlElement.remove_attribute txn self name st).1 := by
  unfold YXmlElement.remove_attribute
  split
  · rename_i p heq
    exact cvp_setCell heq rfl
  · split
    · exact cvp_refl st
    · exact cvp_of_cellsEq (by simp [cells_engineRemoveAttr])
  · exact cvp_refl st

theorem fragPush_cvp (fuel txn : Nat) (self : CellId) (ch : YXmlChild)
    (st : Store) : CVP st (YXmlFragment.push fuel txn self ch st).1 := by
  unfold YXmlFragment.push
  split
  · exact cvp_refl st
  · split
    · rename_i cs heq
      exact cvp_setCell heq rfl
    · split
      · exact cvp_refl st
      · exact cvp_linkChild
    · exact cvp_refl st

theorem fragInsert_cvp (fuel txn : Nat) (self : CellId) (i : Nat)
    (ch : YXmlChild) (st : Store) :
    CVP st (YXmlFragment.insert fuel txn self i ch st).1 := by
  unfold YXmlFragment.insert
  split
  · exact cvp_refl st
  · split
    · rename_i cs heq
      exact cvp_setCell heq rfl
    · split
      · exact cvp_refl st
      · exact cvp_linkChild
    · exact cvp_refl st

theorem fragDelete_cvp (txn : Nat) (self : CellId) (i l : Nat) (st : Store) :
    CVP st (YXmlFragment.delete txn self i l st).1 := by
  unfold YXmlFragment.delete
  split
  · rename_i cs heq
    exact cvp_setCell heq rfl
  · split
    · exact cvp_refl st
    · exact cvp_of_cellsEq (by simp [cells_engineRemoveRange])
  · exact cvp_refl st

theorem xtextInsert_cvp (txn : Nat) (self : CellId) (i : Nat)
    (chunk : List Char) (attrs : Option (List (String × YValue)))
    (st : Store) : CVP st (YXmlText.insert txn self i chunk attrs st).1 := by
  unfold YXmlText.insert
  split
  · split
    · rename_i p heq _
      exact cvp_setCell heq rfl
    · exact cvp_refl st
  · split
    · exact cvp_refl st
    · split
      · exact cvp_of_cellsEq (by simp [cells_engineInsertText])
      · exact cvp_of_cellsEq (by simp [cells_engineFormat, cells_engineInsertText])
  · exact cvp_refl st

theorem xtextPush_cvp (txn : Nat) (self : CellId) (chunk : List Char)
    (attrs : Option (List (String × YValue))) (st : Store) :
    CVP st (YXmlText.push txn self chunk attrs st).1 := by
  unfold YXmlText.push
  split
  · split
    · rename_i p heq _
      exact cvp_setCell heq rfl
    · exact cvp_refl st
  · split
    · exact cvp_refl st
    · split
      · exact cvp_of_cellsEq (by simp [cells_engineInsertText])
      · exact cvp_of_cellsEq (by simp [cells_engineFormat, cells_engineInsertText])
  · exact cvp_refl st

theorem xtextDelete_cvp (txn : Nat) (self : CellId) (i l : Nat) (st : Store) :
    CVP st (YXmlText.delete txn self i l st).1 := by
  unfold YXmlText.delete
  split
  · rename_i p heq
    exact cvp_setCell heq rfl
  · split
    · exact cvp_refl st
    · exact cvp_of_cellsEq (by simp [cells_engineRemoveRange])
  · exact cvp_refl st

theorem xtextFormat_cvp (txn : Nat) (self : CellId) (i l : Nat)
    (attrs : Option (List (String × YValue))) (st : Store) :
    CVP st (YXmlText.format txn self i l attrs st).1 := by
  unfold YXmlText.format
  split
  · exact cvp_refl st
  · split
    · exact cvp_refl st
    · split
      · exact cvp_refl st
      · exact cvp_of_cellsEq (by simp [cells_engineFormat])
    · exact cvp_refl st

theorem xtextSetAttr_cvp (txn : Nat) (self : CellId) (name : String)
    (v : YValue) (st : Store) :
    CVP st (YXmlText.set_attribute txn self name v st).1 := by
  unfold YXmlText.set_attribute
  split
  · rename_i p heq
    exact cvp_setCell heq rfl
  · split
    · exact cvp_refl st
    · exact cvp_of_cellsEq (by simp [cells_engineInsertAttr])
  · exact cvp_refl st

theorem xtextRemoveAttr_cvp (txn : Nat) (self : CellId) (name : String)
    (st : Store) : CVP st (YXmlText.remove_attribute txn self name st).1 := by
  unfold YXmlText.remove_attribute
  split
  · rename_i p heq
    exact cvp_setCell heq rfl
  · split
    · exact cvp_refl st
    · exact cvp_of_cellsEq (by simp [cells_engineRemoveAttr])
  · exact cvp_refl st

theorem ptextInsert_cvp (txn : Nat) (self : CellId) (i : Nat)
    (chunk : List Char) (attrs : Option (Except String AnyV)) (st : Store) :
    CVP st (YText.insert txn self i chunk attrs st).1 := by
  unfold YText.insert
  split
  · exact cvp_refl st
  · split
    · split
      · rename_i s0 heq pa hp
        exact cvp_setCell heq rfl
      · exact cvp_refl st
    · split
      · exact cvp_refl st
      · split
        · exact cvp_of_cellsEq (by simp [cells_engineFormat, cells_engineInsertText])
        · exact cvp_of_cellsEq (by simp [cells_engineInsertText])
    · exact cvp_refl st

theorem ptextPush_cvp (txn : Nat) (self : CellId) (chunk : List Char)
    (attrs : Option (Except String AnyV)) (st : Store) :
    CVP st (YText.push txn self chunk attrs st).1 := by
  unfold YText.push
  split
  · exact cvp_refl st
  · split
    · split
      · exact cvp_refl st
      · rename_i s0 heq pa hp
        exact cvp_setCell heq rfl
    · split
      · exact cvp_refl st
      · split
        · exact cvp_of_cellsEq (by simp [cells_engineFormat, cells_engineInsertText])
        · exact cvp_of_cellsEq (by simp [cells_engineInsertText])
    · exact cvp_refl st

theorem ptextDelete_cvp (txn : Nat) (self : CellId) (i l : Nat) (st : Store) :
    CVP st (YText.delete txn self i l st).1 := by
  unfold YText.delete
  split
  · rename_i s0 heq
    exact cvp_setCell heq rfl
  · split
    · exact cvp_refl st
    · exact cvp_of_cellsEq (by simp [cells_engineRemoveRange])
  · exact cvp_refl st

theorem ptextFormat_cvp (txn : Nat) (self : CellId) (i l : Nat)
    (attrs : Except String AnyV) (st : Store) :
    CVP st (YText.format txn self i l attrs st).1 := by
  unfold YText.format
  split
  · exact cvp_refl st
  · exact cvp_refl st
  · split
    · exact cvp_refl st
    · split
      · exact cvp_refl st
      · exact cvp_of_cellsEq (by simp [cells_engineFormat])
    · exact cvp_refl st

/-- Cells survive a whole children-replay fold untouched. -/
theorem getCell_childrenFold {fuel txn : Nat} {n : NodeId}
    (l : List YXmlChild) (st : Store) {c : CellId} {s : CellState}
    (h : st.getCell c = some s) :
    (l.foldl (fun acc ch => engineLinkChild fuel txn n none ch acc) st).getCell c
      = some s := by
  refine foldl_pres (P := fun (s2 : Store) => s2.getCell c = some s) ?_ l st h
  intro s2 ch h2
  exact getCell_engineLinkChild h2

theorem CVP.toW {st st2 : Store} (h : CVP st st2) : CVPW st st2 := by
  intro c s hc
  obtain ⟨s', h1, h2⟩ := h c s hc
  exact ⟨s', h1, fun h3 => h2.trans h3⟩

theorem integrateElem_cvpw (fuel txn : Nat) (self : CellId) (n : NodeId)
    (st : Store) : CVPW st (YXmlElement.integrate fuel txn self n st) := by
  intro c s hc
  unfold YXmlElement.integrate
  by_cases hcs : c = self
  · subst hcs
    have h1 : (st.setCell c (.integElem n)).getCell c = some (.integElem n) := by
      simpa [Store.setCell, Store.getCell] using assocGet_assocSet_self hc
    refine ⟨.integElem n, ?_, fun _ => rfl⟩
    split
    · exact getCell_attrFold _ _ _ _ _ _ (getCell_childrenFold _ _ h1)
    · exact h1
  · have h1 : (st.setCell self (.integElem n)).getCell c = some s := by
      have := @assocGet_assocSet_other CellState c self st.cells
        (CellState.integElem n) (fun h2 => hcs h2.symm)
      simpa [Store.setCell, Store.getCell, this] using hc
    refine ⟨s, ?_, fun h => h⟩
    split
    · exact getCell_attrFold _ _ _ _ _ _ (getCell_childrenFold _ _ h1)
    · exact h1

theorem integrateText_cvpw (txn : Nat) (self : CellId) (n : NodeId)
    (st : Store) : CVPW st (YXmlText.integrate txn self n st) := by
  intro c s hc
  unfold YXmlText.integrate
  by_cases hcs : c = self
  · subst hcs
    have h1 : (st.setCell c (.integText n)).getCell c = some (.integText n) := by
      simpa [Store.setCell, Store.getCell] using assocGet_assocSet_self hc
    refine ⟨.integText n, ?_, fun _ => rfl⟩
    split
    · refine getCell_attrFold _ _ _ _ _ _ ?_
      simpa [Store.getCell, cells_engineInsertText] using h1
    · exact h1
  · have h1 : (st.setCell self (.integText n)).getCell c = some s := by
      have := @assocGet_assocSet_other CellState c self st.cells
        (CellState.integText n) (fun h2 => hcs h2.symm)
      simpa [Store.setCell, Store.getCell, this] using hc
    refine ⟨s, ?_, fun h => h⟩
    split
    · refine getCell_attrFold _ _ _ _ _ _ ?_
      simpa [Store.getCell, cells_engineInsertText] using h1
    · exact h1

theorem integrateFrag_cvpw (fuel txn : Nat) (self : CellId) (n : NodeId)
    (st : Store) : CVPW st (YXmlFragment.integrate fuel txn self n st) := by
  intro c s hc
  unfold YXmlFragment.integrate
  by_cases hcs : c = self
  · subst hcs
    have h1 : (st.setCell c (.integFrag n)).getCell c = some (.integFrag n) := by
      simpa [Store.setCell, Store.getCell] using assocGet_assocSet_self hc
    refine ⟨.integFrag n, ?_, fun _ => rfl⟩
    split
    · exact getCell_childrenFold _ _ h1
    · exact h1
  · have h1 : (st.setCell self (.integFrag n)).getCell c = some s := by
      have := @assocGet_assocSet_other CellState c self st.cells
        (CellState.integFrag n) (fun h2 => hcs h2.symm)
      simpa [Store.setCell, Store.getCell, this] using hc
    refine ⟨s, ?_, fun h => h⟩
    split
    · exact getCell_childrenFold _ _ h1
    · exact h1

/-- Every operation preserves integrated-ness, and every non-integration
operation preserves the variant of every live cell exactly. -/
theorem op_apply_pres (fuel txn : Nat) (op : Op) (st : Store) :
    CVPW st (Op.apply fuel txn op st)
    ∧ (op.isIntegration = false → CVP st (Op.apply fuel txn op st)) := by
  cases op with
  | elemPush self ch =>
    exact ⟨(elemPush_cvp fuel txn self ch st).toW,
      fun _ => elemPush_cvp fuel txn self ch st⟩
  | elemInsert self i ch =>
    exact ⟨(elemInsert_cvp fuel txn self i ch st).toW,
      fun _ => elemInsert_cvp fuel txn self i ch st⟩
  | elemDelete self i l =>
    exact ⟨(elemDelete_cvp txn self i l st).toW,
      fun _ => elemDelete_cvp txn self i l st⟩
  | elemSetAttr self name v =>
    exact ⟨(elemSetAttr_cvp txn self name v st).toW,
      fun _ => elemSetAttr_cvp txn self name v st⟩
  | elemRemoveAttr self name =>
    exact ⟨(elemRemoveAttr_cvp txn self name st).toW,
      fun _ => elemRemoveAttr_cvp txn self name st⟩
  | fragPush self ch =>
    exact ⟨(fragPush_cvp fuel txn self ch st).toW,
      fun _ => fragPush_cvp fuel txn self ch st⟩
  | fragInsert self i ch =>
    exact ⟨(fragInsert_cvp fuel txn self i ch st).toW,
      fun _ => fragInsert_cvp fuel txn self i ch st⟩
  | fragDelete self i l =>
    exact ⟨(fragDelete_cvp txn self i l st).toW,
      fun _ => fragDelete_cvp txn self i l st⟩
  | xtextInsert self i chunk attrs =>
    exact ⟨(xtextInsert_cvp txn self i chunk attrs st).toW,
      fun _ => xtextInsert_cvp txn self i chunk attrs st⟩
  | xtextPush self chunk attrs =>
    exact ⟨(xtextPush_cvp txn self chunk attrs st).toW,
      fun _ => xtextPush_cvp txn self chunk attrs st⟩
  | xtextDelete self i l =>
    exact ⟨(xtextDelete_cvp txn self i l st).toW,
      fun _ => xtextDelete_cvp txn self i l st⟩
  | xtextFormat self i l attrs =>
    exact ⟨(xtextFormat_cvp txn self i l attrs st).toW,
      fun _ => xtextFormat_cvp txn self i l attrs st⟩
  | xtextSetAttr self name v =>
    exact ⟨(xtextSetAttr_cvp txn self name v st).toW,
      fun _ => xtextSetAttr_cvp txn self name v st⟩
  | xtextRemoveAttr self name =>
    exact ⟨(xtextRemoveAttr_cvp txn self name st).toW,
      fun _ => xtextRemoveAttr_cvp txn self name st⟩
  | ptextInsert self i chunk attrs =>
    exact ⟨(ptextInsert_cvp txn self i chunk attrs st).toW,
      fun _ => ptextInsert_cvp txn self i chunk attrs st⟩
  | ptextPush self chunk attrs =>
    exact ⟨(ptextPush_cvp txn self chunk attrs st).toW,
      fun _ => ptextPush_cvp txn self chunk attrs st⟩
  | ptextDelete self i l =>
    exact ⟨(ptextDelete_cvp txn self i l st).toW,
      fun _ => ptextDelete_cvp txn self i l st⟩
  | ptextFormat self i l attrs =>
    exact ⟨(ptextFormat_cvp txn self i l attrs st).toW,
      fun _ => ptextFormat_cvp txn self i l attrs st⟩
  | integrateElem self n =>
    exact ⟨integrateElem_cvpw fuel txn self n st, fun h => by
      simp [Op.isIntegration] at h⟩
  | integrateText self n =>
    exact ⟨integrateText_cvpw txn self n st, fun h => by
      simp [Op.isIntegration] at h⟩
  | integrateFrag self n =>
    exact ⟨integrateFrag_cvpw fuel txn self n st, fun h => by
      simp [Op.isIntegration] at h⟩

/-! ## Replay-order lemmas (claim C2)

Structure of the engine-call log produced by integrating a preliminary
element: all children are appended (recursively, in original order, under
the same transaction) before the buffered attribute map is replayed. -/

theorem EngineCall.target_of_isAttrOn {n : NodeId} {e : EngineCall}
    (h : e.isAttrOn n = true) : e.target = n := by
  cases e <;> simp_all [EngineCall.isAttrOn, EngineCall.target]

theorem log_engineInsertAttr (st : Store) (txn : Nat) (n : NodeId)
    (name : String) (v : YValue) :
    (st.engineInsertAttr txn n name v).log = st.log ++ [.insertAttr txn n name v] := by
  unfold Store.engineInsertAttr
  cases st.getNode n <;> simp [Store.setNode]

theorem nextNode_engineInsertAttr (st : Store) (txn : Nat) (n : NodeId)
    (name : String) (v : YValue) :
    (st.engineInsertAttr txn n name v).nextNode = st.nextNode := by
  unfold Store.engineInsertAttr
  cases st.getNode n <;> simp [Store.setNode]

theorem log_engineInsertText (st : Store) (txn : Nat) (n : NodeId)
    (idx : Nat) (chunk : List Char) :
    (st.engineInsertText txn n idx chunk).log
      = st.log ++ [.insertText txn n idx chunk] := by
  unfold Store.engineInsertText
  cases st.getNode n <;> simp [Store.setNode]

theorem nextNode_engineInsertText (st : Store) (txn : Nat) (n : NodeId)
    (idx : Nat) (chunk : List Char) :
    (st.engineInsertText txn n idx chunk).nextNode = st.nextNode := by
  unfold Store.engineInsertText
  cases st.getNode n <;> simp [Store.setNode]

theorem engineAllocLinked_spec (st : Store) (txn : Nat) (p : NodeId)
    (pos : Option Nat) (k : NodeKind) (tag : String) :
    (st.engineAllocLinked txn p pos k tag).1 = st.nextNode
    ∧ (st.engineAllocLinked txn p pos k tag).2.log
        = st.log ++ [linkEntry pos txn p st.nextNode k]
    ∧ (st.engineAllocLinked txn p pos k tag).2.nextNode = st.nextNode + 1 := by
  unfold Store.engineAllocLinked
  cases h : assocGet p (st.nodes ++ [(st.nextNode,
      { kind := k, tag := tag, attrs := [], text := [], fmts := [],
        children := [], parent := some p })]) with
  | none => cases pos <;> simp [Store.getNode, h, linkEntry]
  | some pn => cases pos <;> simp [Store.getNode, h, Store.setNode, linkEntry]

theorem log_attrFold (txn : Nat) (n : NodeId) :
    ∀ (l : List (String × YValue)) (st : Store),
    (l.foldl (fun acc kv => acc.engineInsertAttr txn n kv.1 kv.2) st).log
      = st.log ++ l.map (fun kv => EngineCall.insertAttr txn n kv.1 kv.2)
  | [], st => by simp
  | kv :: l, st => by
    rw [List.foldl_cons, log_attrFold txn n l]
    simp [log_engineInsertAttr]

theorem nextNode_attrFold (txn : Nat) (n : NodeId) :
    ∀ (l : List (String × YValue)) (st : Store),
    (l.foldl (fun acc kv => acc.engineInsertAttr txn n kv.1 kv.2) st).nextNode
      = st.nextNode
  | [], st => by simp
  | kv :: l, st => by
    rw [List.foldl_cons, nextNode_attrFold txn n l]
    simp [nextNode_engineInsertAttr]

theorem log_allocCell (st : Store) (s : CellState) :
    (st.allocCell s).2.log = st.log := rfl

theorem nextNode_allocCell (st : Store) (s : CellState) :
    (st.allocCell s).2.nextNode = st.nextNode := rfl

/-- Derivation of the child-link log shape from the integration log shape
at the same recursion depth. -/
theorem linkSpec_of (fuel : Nat)
    (hy : ∀ txn ch n st, ∃ ext,
      (ychildIntegrate fuel txn ch n st).log = st.log ++ ext
      ∧ st.nextNode ≤ (ychildIntegrate fuel txn ch n st).nextNode
      ∧ ∀ e ∈ ext, e.txnOf = txn ∧ (e.target = n ∨ st.nextNode ≤ e.target)) :
    ∀ txn p pos ch st, ∃ ext,
      (engineLinkChild fuel txn p pos ch st).log
        = st.log ++ linkEntry pos txn p st.nextNode ch.kind :: ext
      ∧ st.nextNode ≤ (engineLinkChild fuel txn p pos ch st).nextNode
      ∧ ∀ e ∈ ext, e.txnOf = txn ∧ st.nextNode ≤ e.target := by
  intro txn p pos ch st
  obtain ⟨h1, h2, h3⟩ := engineAllocLinked_spec st txn p pos ch.kind (st.typeRefTag ch)
  obtain ⟨ext, hl, hm, he⟩ := hy txn ch
    (st.engineAllocLinked txn p pos ch.kind (st.typeRefTag ch)).1
    (st.engineAllocLinked txn p pos ch.kind (st.typeRefTag ch)).2
  have hlink : engineLinkChild fuel txn p pos ch st
      = ychildIntegrate fuel txn ch
        (st.engineAllocLinked txn p pos ch.kind (st.typeRefTag ch)).1
        (st.engineAllocLinked txn p pos ch.kind (st.typeRefTag ch)).2 := by
    rw [engineLinkChild]
  rw [hlink]
  refine ⟨ext, ?_, ?_, ?_⟩
  · rw [hl, h2]
    simp
  · rw [h3] at hm
    exact le_trans (Nat.le_succ st.nextNode) hm
  · intro e hee
    obtain ⟨ht, htg⟩ := he e hee
    refine ⟨ht, ?_⟩
    rw [h1] at htg
    rw [h3] at htg
    rcases htg with htg | htg
    · exact le_of_eq htg.symm
    · exact le_trans (Nat.le_succ st.nextNode) htg

/-- Log specification of the integration recursion: new log entries for
node `n` carry the same transaction and target either `n` itself or a node
allocated during the call; a child link contributes its link entry first,
followed only by entries about freshly allocated nodes. -/
theorem ychild_log_all (fuel : Nat) :
    (∀ txn ch n st, ∃ ext,
      (ychildIntegrate fuel txn ch n st).log = st.log ++ ext
      ∧ st.nextNode ≤ (ychildIntegrate fuel txn ch n st).nextNode
      ∧ ∀ e ∈ ext, e.txnOf = txn ∧ (e.target = n ∨ st.nextNode ≤ e.target))
    ∧ (∀ txn p pos ch st, ∃ ext,
      (engineLinkChild fuel txn p pos ch st).log
        = st.log ++ linkEntry pos txn p st.nextNode ch.kind :: ext
      ∧ st.nextNode ≤ (engineLinkChild fuel txn p pos ch st).nextNode
      ∧ ∀ e ∈ ext, e.txnOf = txn ∧ st.nextNode ≤ e.target) := by
  induction fuel with
  | zero =>
    have hy : ∀ txn ch n (st : Store), ∃ ext,
        (ychildIntegrate 0 txn ch n st).log = st.log ++ ext
        ∧ st.nextNode ≤ (ychildIntegrate 0 txn ch n st).nextNode
        ∧ ∀ e ∈ ext, e.txnOf = txn ∧ (e.target = n ∨ st.nextNode ≤ e.target) := by
      intro txn ch n st
      exact ⟨[], by simp [ychildIntegrate], by simp [ychildIntegrate], by simp⟩
    exact ⟨hy, linkSpec_of 0 hy⟩
  | succ fuel ih =>
    have hfold : ∀ txn n (l : List YXmlChild) (st : Store), ∃ ext,
        (l.foldl (fun acc ch => engineLinkChild fuel txn n none ch acc) st).log
          = st.log ++ ext
        ∧ st.nextNode ≤
            (l.foldl (fun acc ch => engineLinkChild fuel txn n none ch acc) st).nextNode
        ∧ ∀ e ∈ ext, e.txnOf = txn ∧ (e.target = n ∨ st.nextNode ≤ e.target) := by
      intro txn n l
      induction l with
      | nil => intro st; exact ⟨[], by simp, by simp, by simp⟩
      | cons ch l ihl =>
        intro st
        obtain ⟨ext0, hl0, hm0, he0⟩ := ih.2 txn n none ch st
        obtain ⟨ext1, hl1, hm1, he1⟩ := ihl (engineLinkChild fuel txn n none ch st)
        refine ⟨linkEntry none txn n st.nextNode ch.kind :: ext0 ++ ext1, ?_, ?_, ?_⟩
        · simp only [List.foldl_cons]
          rw [hl1, hl0]
          simp
        · simp only [List.foldl_cons]
          exact le_trans hm0 hm1
        · intro e he
          rcases List.mem_cons.mp he with he | he
          · subst he
            exact ⟨rfl, Or.inl rfl⟩
          · rcases List.mem_append.mp he with he | he
            · obtain ⟨ht, htg⟩ := he0 e he
              exact ⟨ht, Or.inr htg⟩
            · obtain ⟨ht, htg⟩ := he1 e he
              rcases htg with htg | htg
              · exact ⟨ht, Or.inl htg⟩
              · exact ⟨ht, Or.inr (le_trans hm0 htg)⟩
    have hy : ∀ txn ch n (st : Store), ∃ ext,
        (ychildIntegrate (fuel + 1) txn ch n st).log = st.log ++ ext
        ∧ st.nextNode ≤ (ychildIntegrate (fuel + 1) txn ch n st).nextNode
        ∧ ∀ e ∈ ext, e.txnOf = txn ∧ (e.target = n ∨ st.nextNode ≤ e.target) := by
      intro txn ch n st
      cases ch with
      | text cc =>
        simp only [ychildIntegrate]
        cases hcc : (st.allocCell (.integText n)).2.getCell cc with
        | none =>
          exact ⟨[], by simp [Store.allocCell], by simp [Store.allocCell], by simp⟩
        | some s2 =>
          cases s2 with
          | prelimText raw =>
            simp only [hcc]
            refine ⟨EngineCall.insertText txn n 0 raw.text ::
              raw.attributes.map (fun kv => EngineCall.insertAttr txn n kv.1 kv.2),
              ?_, ?_, ?_⟩
            · rw [log_attrFold, log_engineInsertText]
              simp [Store.allocCell]
            · rw [nextNode_attrFold, nextNode_engineInsertText]
              simp [Store.allocCell]
            · intro e he
              rcases List.mem_cons.mp he with he | he
              · subst he
                exact ⟨rfl, Or.inl rfl⟩
              · obtain ⟨kv, _, hkv⟩ := List.mem_map.mp he
                subst hkv
                exact ⟨rfl, Or.inl rfl⟩
          | prelimElem raw =>
            exact ⟨[], by simp [Store.allocCell], by simp [Store.allocCell], by simp⟩
          | prelimFrag raw =>
            exact ⟨[], by simp [Store.allocCell], by simp [Store.allocCell], by simp⟩
          | prelimPlain raw =>
            exact ⟨[], by simp [Store.allocCell], by simp [Store.allocCell], by simp⟩
          | integText m =>
            exact ⟨[], by simp [Store.allocCell], by simp [Store.allocCell], by simp⟩
          | integElem m =>
            exact ⟨[], by simp [Store.allocCell], by simp [Store.allocCell], by simp⟩
          | integFrag m =>
            exact ⟨[], by simp [Store.allocCell], by simp [Store.allocCell], by simp⟩
          | integPlain m =>
            exact ⟨[], by simp [Store.allocCell], by simp [Store.allocCell], by simp⟩
      | element cc =>
        simp only [ychildIntegrate]
        cases hcc : (st.allocCell (.integElem n)).2.getCell cc with
        | none =>
          exact ⟨[], by simp [Store.allocCell], by simp [Store.allocCell], by simp⟩
        | some s2 =>
          cases s2 with
          | prelimElem raw =>
            simp only [hcc]
            obtain ⟨ext0, hl0, hm0, he0⟩ :=
              hfold txn n raw.children (st.allocCell (.integElem n)).2
            refine ⟨ext0 ++
              raw.attributes.map (fun kv => EngineCall.insertAttr txn n kv.1 kv.2),
              ?_, ?_, ?_⟩
            · rw [log_attrFold, hl0]
              simp [Store.allocCell]
            · rw [nextNode_attrFold]
              simpa [Store.allocCell] using hm0
            · intro e he
              rcases List.mem_append.mp he with he | he
              · have := he0 e he
                simpa [Store.allocCell] using this
              · obtain ⟨kv, _, hkv⟩ := List.mem_map.mp he
                subst hkv
                exact ⟨rfl, Or.inl rfl⟩
          | prelimText raw =>
            exact ⟨[], by simp [Store.allocCell], by simp [Store.allocCell], by simp⟩
          | prelimFrag raw =>
            exact ⟨[], by simp [Store.allocCell], by simp [Store.allocCell], by simp⟩
          | prelimPlain raw =>
            exact ⟨[], by simp [Store.allocCell], by simp [Store.allocCell], by simp⟩
          | integText m =>
            exact ⟨[], by simp [Store.allocCell], by simp [Store.allocCell], by simp⟩
          | integElem m =>
            exact ⟨[], by simp [Store.allocCell], by simp [Store.allocCell], by simp⟩
          | integFrag m =>
            exact ⟨[], by simp [Store.allocCell], by simp [Store.allocCell], by simp⟩
          | integPlain m =>
            exact ⟨[], by simp [Store.allocCell], by simp [Store.allocCell], by simp⟩
      | fragment cc =>
        simp only [ychildIntegrate]
        cases hcc : (st.allocCell (.integFrag n)).2.getCell cc with
        | none =>
          exact ⟨[], by simp [Store.allocCell], by simp [Store.allocCell], by simp⟩
        | some s2 =>
          cases s2 with
          | prelimFrag raw =>
            simp only [hcc]
            obtain ⟨ext0, hl0, hm0, he0⟩ :=
              hfold txn n raw (st.allocCell (.integFrag n)).2
            refine ⟨ext0, ?_, ?_, ?_⟩
            · rw [hl0]
              simp [Store.allocCell]
            · simpa [Store.allocCell] using hm0
            · intro e he
              have := he0 e he
              simpa [Store.allocCell] using this
          | prelimText raw =>
            exact ⟨[], by simp [Store.allocCell], by simp [Store.allocCell], by simp⟩
          | prelimElem raw =>
            exact ⟨[], by simp [Store.allocCell], by simp [Store.allocCell], by simp⟩
          | prelimPlain raw =>
            exact ⟨[], by simp [Store.allocCell], by simp [Store.allocCell], by simp⟩
          | integText m =>
            exact ⟨[], by simp [Store.allocCell], by simp [Store.allocCell], by simp⟩
          | integElem m =>
            exact ⟨[], by simp [Store.allocCell], by simp [Store.allocCell], by simp⟩
          | integFrag m =>
            exact ⟨[], by simp [Store.allocCell], by simp [Store.allocCell], by simp⟩
          | integPlain m =>
            exact ⟨[], by simp [Store.allocCell], by simp [Store.allocCell], by simp⟩
    exact ⟨hy, linkSpec_of (fuel + 1) hy⟩

/-- Shape of the children-replay fold for a live parent `n`: among the new
log entries, the calls that touch `n` itself are exactly one child-append
per buffered child, in original order and with the buffered kinds; no
attribute of `n` is written during this phase, and the whole phase runs
under the given transaction. -/
theorem childrenFold_filter (fuel txn : Nat) (n : NodeId) :
    ∀ (l : List YXmlChild) (st : Store), n < st.nextNode →
    ∃ ext,
      (l.foldl (fun acc ch => engineLinkChild fuel txn n none ch acc) st).log
        = st.log ++ ext
      ∧ n < (l.foldl (fun acc ch => engineLinkChild fuel txn n none ch acc) st).nextNode
      ∧ (ext.filter (fun e => e.target == n)).map EngineCall.appendKind
          = l.map (fun ch => some ch.kind)
      ∧ (∀ e ∈ ext, e.txnOf = txn)
      ∧ (∀ e ∈ ext, e.isAttrOn n = false) := by
  intro l
  induction l with
  | nil =>
    intro st hn
    exact ⟨[], by simp, by simpa using hn, by simp, by simp, by simp⟩
  | cons ch l ihl =>
    intro st hn
    obtain ⟨ext0, hl0, hm0, he0⟩ := (ychild_log_all fuel).2 txn n none ch st
    obtain ⟨ext1, hl1, hm1, hf1, ht1, ha1⟩ :=
      ihl (engineLinkChild fuel txn n none ch st) (lt_of_lt_of_le hn hm0)
    refine ⟨linkEntry none txn n st.nextNode ch.kind :: ext0 ++ ext1, ?_, ?_, ?_, ?_, ?_⟩
    · simp only [List.foldl_cons]
      rw [hl1, hl0]
      simp
    · simpa only [List.foldl_cons] using hm1
    · have hfe : ext0.filter (fun e => e.target == n) = [] := by
        refine List.filter_eq_nil_iff.mpr ?_
        intro e he
        have h2 := (he0 e he).2
        have hne : e.target ≠ n := by
          intro hEq
          rw [hEq] at h2
          exact absurd (lt_of_lt_of_le hn h2) (lt_irrefl n)
        simpa using hne
      have hentry : ((linkEntry none txn n st.nextNode ch.kind).target == n) = true := by
        simp [linkEntry, EngineCall.target]
      simp only [List.cons_append, List.filter_cons, hentry, if_true,
        List.filter_append, hfe, List.nil_append, List.map_cons, hf1]
      simp [linkEntry, EngineCall.appendKind]
    · intro e he
      rcases List.mem_cons.mp he with he | he
      · subst he
        rfl
      · rcases List.mem_append.mp he with he | he
        · exact (he0 e he).1
        · exact ht1 e he
    · intro e he
      rcases List.mem_cons.mp he with he | he
      · subst he
        rfl
      · rcases List.mem_append.mp he with he | he
        · by_contra hcon
          have htrue : e.isAttrOn n = true := by
            cases h2 : e.isAttrOn n with
            | true => rfl
            | false => exact absurd h2 hcon
          have h3 := EngineCall.target_of_isAttrOn htrue
          have h4 := (he0 e he).2
          rw [h3] at h4
          exact absurd (lt_of_lt_of_le hn h4) (lt_irrefl n)
        · exact ha1 e he

/-! ## Claim theorems -/

/-- C1 (code-bug evidence): pushing a preliminary XML text into an
integrated parent succeeds, but the caller-visible handle cell still
reports `is_prelim() = true` afterwards and its buffered payload is
untouched — `xml.rs::YXmlChild::integrate` replaced a local binding, not
the shared cell, so the externally visible handle never flips to
`Integrated` as the claim requires. -/
theorem c1_insert_leaves_handle_preliminary :
    (YXmlElement.push 3 0 0 (.text 1) c1Store).2 = none
    ∧ ((YXmlElement.push 3 0 0 (.text 1) c1Store).1.getCell 1).map CellState.isPrelim
        = some true
    ∧ (YXmlElement.push 3 0 0 (.text 1) c1Store).1.getCell 1 = c1Store.getCell 1 := by
  refine ⟨?_, ?_, ?_⟩ <;>
    simp [YXmlElement.push, Store.assertXmlPrelim, c1Store, rootElemNode,
      Store.getCell, assocGet, CellState.isPrelim, YXmlChild.cell, Store.getNode,
      engineLinkChild, ychildIntegrate, Store.engineAllocLinked, Store.typeRefTag,
      Store.allocCell, Store.setNode, assocSet, Store.engineInsertText,
      Store.engineInsertAttr, YXmlChild.kind, spliceIn]

/-- C2 counterexample: integrating the fixture element (one attribute, one
text child) produces the engine-call log with both child appends *before*
the attribute write, so the claim's "attributes are replayed before the
children are appended" ordering is false on this input. -/
theorem c2_attrs_first_cex :
    (YXmlElement.push 3 7 0 (.element 5) c2Store).2 = none
    ∧ (YXmlElement.push 3 7 0 (.element 5) c2Store).1.log
        = [.appendChild 7 0 1 .element,
           .appendChild 7 1 2 .text,
           .insertText 7 2 0 "x".toList,
           .insertAttr 7 1 "class" (.String "a")]
    ∧ attrsReplayedBeforeChildren 1
        ((YXmlElement.push 3 7 0 (.element 5) c2Store).1.log) = false := by
  refine ⟨?_, ?_, ?_⟩ <;>
    simp [YXmlElement.push, Store.assertXmlPrelim, c2Store, rootElemNode,
      Store.getCell, assocGet, CellState.isPrelim, YXmlChild.cell, Store.getNode,
      engineLinkChild, ychildIntegrate, Store.engineAllocLinked, Store.typeRefTag,
      Store.allocCell, Store.setNode, assocSet, Store.engineInsertText,
      Store.engineInsertAttr, YXmlChild.kind, spliceIn,
      attrsReplayedBeforeChildren, noAttrOnAfterChild,
      EngineCall.isAppendTo, EngineCall.isAttrOn]

/-- C2 (amended): during integration of a preliminary XML element, the
buffered children are appended to the live node first — in original order,
each child integrated recursively under the same transaction — and the
buffered attribute map is replayed attribute by attribute only after the
whole children phase (no attribute of the new node is written during the
children phase). -/
theorem c2_replay_children_first (fuel txn : Nat) (c : CellId) (n : NodeId)
    (st : Store) (p : PrelimXmElement)
    (hc : st.getCell c = some (.prelimElem p)) (hn : n < st.nextNode) :
    ∃ childOps,
      (ychildIntegrate (fuel + 1) txn (.element c) n st).log
        = st.log ++ childOps
          ++ p.attributes.map (fun kv => EngineCall.insertAttr txn n kv.1 kv.2)
      ∧ (childOps.filter (fun e => e.target == n)).map EngineCall.appendKind
          = p.children.map (fun ch => some ch.kind)
      ∧ (∀ e ∈ childOps, e.isAttrOn n = false)
      ∧ (∀ e ∈ childOps, e.txnOf = txn) := by
  have halloc : (st.allocCell (.integElem n)).2.getCell c = some (.prelimElem p) := by
    simpa [Store.allocCell, Store.getCell] using
      @assocGet_append_left CellState c st.cells
        [(st.nextCell, CellState.integElem n)] (CellState.prelimElem p) hc
  simp only [ychildIntegrate, halloc]
  obtain ⟨ext, hl, hm, hf, ht, ha⟩ :=
    childrenFold_filter fuel txn n p.children (st.allocCell (.integElem n)).2
      (by simpa [Store.allocCell] using hn)
  refine ⟨ext, ?_, hf, ha, ht⟩
  rw [log_attrFold, hl]
  simp [Store.allocCell]

/-- C2 witness: the amended replay-order theorem applied to the fixture
element under transaction 7 at live node 0. -/
theorem c2_replay_children_first_witness :
    ∃ childOps,
      (ychildIntegrate 1 7 (.element 5) 0 c2Store).log
        = c2Store.log ++ childOps
          ++ [EngineCall.insertAttr 7 0 "class" (.String "a")]
      ∧ (childOps.filter (fun e => e.target == 0)).map EngineCall.appendKind
          = [some NodeKind.text]
      ∧ (∀ e ∈ childOps, e.isAttrOn 0 = false)
      ∧ (∀ e ∈ childOps, e.txnOf = 7) := by
  have h := c2_replay_children_first 0 7 5 0 c2Store
    ⟨"div", [("class", .String "a")], [.text 6]⟩ rfl (by decide)
  simpa using h

/-- C3 counterexample: with a mutable transaction open, a shared-collection
operation that opens its transaction implicitly fails with `AnotherTx`, not
with the `AnotherRwTx` the claim asserts for this path. -/
theorem c3_implicit_error_kind_cex :
    Integrated.mutablyImplicit true [1] busyDoc = .error .AnotherTx
    ∧ Error.AnotherTx ≠ Error.AnotherRwTx :=
  ⟨rfl, by decide⟩

/-- C3 (amended): while a mutable transaction is open, the document's
explicit `transaction()` fails fast with `AnotherRwTx` and an implicit
shared-collection transaction fails fast with `AnotherTx` (neither blocks);
after the open transaction commits, a new explicit transaction succeeds. -/
theorem c3_single_writer (d : DocM) (o : Option String) (h : d.busy = true) :
    YDoc.transaction d o = .error .AnotherRwTx
    ∧ (∀ alive ops, Integrated.mutablyImplicit alive ops d = .error .AnotherTx)
    ∧ (∀ t : YTransactionInner, t.committed = false →
        YDoc.transaction (t.commit d).1.2 o
          = .ok ({ inner := { pending := [], origin := o }, committed := false },
                 { busy := true, content := d.content ++ t.inner.pending })) := by
  refine ⟨?_, ?_, ?_⟩
  · simp [YDoc.transaction, DocM.try_transact_mut, h]
  · intro alive ops
    simp [Integrated.mutablyImplicit, Integrated.transact_mut,
      DocM.try_transact_mut, h]
  · intro t ht
    simp [YTransactionInner.commit, ht, EngineTxnMut.commitRaw,
      DocM.releaseBorrow, YDoc.transaction, DocM.try_transact_mut]

/-- C3 witness: the single-writer behaviour at a busy document, including
the success of a fresh transaction after commit. -/
theorem c3_single_writer_witness :
    YDoc.transaction busyDoc none = .error .AnotherRwTx
    ∧ Integrated.mutablyImplicit true [1, 2] busyDoc = .error .AnotherTx
    ∧ YDoc.transaction
        (({ inner := { pending := [3], origin := none }, committed := false } :
          YTransactionInner).commit busyDoc).1.2 none
        = .ok ({ inner := { pending := [], origin := none }, committed := false },
               { busy := true, content := [3] }) := by
  obtain ⟨h1, h2, h3⟩ := c3_single_writer busyDoc none rfl
  refine ⟨h1, h2 true [1, 2], ?_⟩
  simpa [busyDoc] using
    h3 { inner := { pending := [3], origin := none }, committed := false } rfl

/-- C4: inserting or pushing an already-Integrated child into an XML
element or fragment fails with `NotPrelim`, and the pre-check runs before
any mutation, so the store (parent, document, log) is returned unchanged. -/
theorem c4_integrated_child_rejected (fuel txn : Nat) (parent : CellId)
    (i : Nat) (ch : YXmlChild) (st : Store) (s : CellState)
    (hch : st.getCell ch.cell = some s) (hint : s.isPrelim = false) :
    YXmlElement.push fuel txn parent ch st = (st, some .NotPrelim)
    ∧ YXmlElement.insert fuel txn parent i ch st = (st, some .NotPrelim)
    ∧ YXmlFragment.push fuel txn parent ch st = (st, some .NotPrelim)
    ∧ YXmlFragment.insert fuel txn parent i ch st = (st, some .NotPrelim) := by
  have hassert : st.assertXmlPrelim ch = some .NotPrelim := by
    simp [Store.assertXmlPrelim, hch, hint]
  refine ⟨?_, ?_, ?_, ?_⟩ <;>
    simp [YXmlElement.push, YXmlElement.insert, YXmlFragment.push,
      YXmlFragment.insert, hassert]

/-- C4 witness: pushing the integrated text handle of the fixture into the
integrated element and into a fragment is rejected with `NotPrelim`. -/
theorem c4_integrated_child_rejected_witness :
    YXmlElement.push 1 0 0 (.text 1) c4Store = (c4Store, some .NotPrelim)
    ∧ YXmlFragment.push 1 0 0 (.text 1) c4Store = (c4Store, some .NotPrelim) := by
  have h := c4_integrated_child_rejected 1 0 0 0 (.text 1) c4Store
    (.integText 0) rfl rfl
  exact ⟨h.1, h.2.2.1⟩

/-- C5: across every modelled operation, a handle cell that reports
`is_prelim() = false` keeps reporting `false` (the Preliminary→Integrated
transition is irreversible, hence happens at most once), and every
operation outside the integration protocol leaves the `is_prelim` answer of
every live cell exactly unchanged. -/
theorem c5_prelim_transition_irreversible (fuel txn : Nat) (op : Op)
    (st : Store) (c : CellId) (s : CellState)
    (hc : st.getCell c = some s) :
    ∃ s2, (Op.apply fuel txn op st).getCell c = some s2
      ∧ (s.isPrelim = false → s2.isPrelim = false)
      ∧ (op.isIntegration = false → s2.isPrelim = s.isPrelim) := by
  obtain ⟨hW, hS⟩ := op_apply_pres fuel txn op st
  by_cases hI : op.isIntegration = false
  · obtain ⟨s2, h1, h2⟩ := hS hI c s hc
    exact ⟨s2, h1, fun h3 => h2.trans h3, fun _ => h2⟩
  · obtain ⟨s2, h1, h2⟩ := hW c s hc
    exact ⟨s2, h1, h2, fun h3 => absurd h3 hI⟩

/-- C5 witness: the invariant applied to a concrete attribute write on the
integrated element of the fixture. -/
theorem c5_prelim_transition_irreversible_witness :
    ∃ s2, (Op.apply 1 0 (.elemSetAttr 0 "k" (.String "v")) c4Store).getCell 0
        = some s2
      ∧ (CellState.isPrelim (.integElem 0) = false → s2.isPrelim = false)
      ∧ ((Op.elemSetAttr 0 "k" (.String "v")).isIntegration = false →
          s2.isPrelim = CellState.isPrelim (.integElem 0)) :=
  c5_prelim_transition_irreversible 1 0 (.elemSetAttr 0 "k" (.String "v"))
    c4Store 0 (.integElem 0) rfl

/-- C6: the first `commit()` succeeds, applies the queued changes, marks
the transaction committed and releases the document borrow; a second
`commit()` fails with `TxnCommitted` and changes neither the transaction
nor the document. -/
theorem c6_commit_exactly_once (t : YTransactionInner) (d : DocM)
    (h : t.committed = false) :
    (t.commit d).2 = none
    ∧ (t.commit d).1.1.committed = true
    ∧ (t.commit d).1.2.content = d.content ++ t.inner.pending
    ∧ (t.commit d).1.2.busy = false
    ∧ ((t.commit d).1.1.commit (t.commit d).1.2).2 = some .TxnCommitted
    ∧ ((t.commit d).1.1.commit (t.commit d).1.2).1 = (t.commit d).1 := by
  simp [YTransactionInner.commit, h, EngineTxnMut.commitRaw, DocM.releaseBorrow]

/-- C6 witness: double commit on a concrete open transaction. -/
theorem c6_commit_exactly_once_witness :
    (({ inner := { pending := [1, 2], origin := none }, committed := false } :
        YTransactionInner).commit { busy := true, content := [0] }).2 = none
    ∧ ((({ inner := { pending := [1, 2], origin := none }, committed := false } :
        YTransactionInner).commit { busy := true, content := [0] }).1.1.commit
        (({ inner := { pending := [1, 2], origin := none }, committed := false } :
        YTransactionInner).commit { busy := true, content := [0] }).1.2).2
        = some .TxnCommitted := by
  have h := c6_commit_exactly_once
    { inner := { pending := [1, 2], origin := none }, committed := false }
    { busy := true, content := [0] } rfl
  exact ⟨h.1, h.2.2.2.2.1⟩

/-- C7: releasing a transaction without an explicit commit commits it as a
last resort — after `Drop` the transaction is always committed, and if it
was still open the document borrow is released, so an uncommitted
transaction cannot leak and block the document; a committed transaction is
released without further effect. -/
theorem c7_drop_autocommits (t : YTransactionInner) (d : DocM) :
    (t.dropImpl d).1.committed = true
    ∧ (t.committed = false → (t.dropImpl d).2.busy = false)
    ∧ (t.committed = true → t.dropImpl d = (t, d)) := by
  cases h : t.committed with
  | false =>
    refine ⟨?_, fun _ => ?_, fun h2 => absurd h2 (by simp [h])⟩ <;>
      simp [YTransactionInner.dropImpl, YTransactionInner.commit, h,
        DocM.releaseBorrow, EngineTxnMut.commitRaw]
  | true =>
    refine ⟨?_, fun h2 => absurd h2 (by simp [h]), fun _ => ?_⟩ <;>
      simp [YTransactionInner.dropImpl, h]

/-- C7 witness: dropping a concrete uncommitted transaction commits it and
frees the document. -/
theorem c7_drop_autocommits_witness :
    (({ inner := { pending := [4], origin := none }, committed := false } :
        YTransactionInner).dropImpl { busy := true, content := [] }).1.committed = true
    ∧ (({ inner := { pending := [4], origin := none }, committed := false } :
        YTransactionInner).dropImpl { busy := true, content := [] }).2.busy = false := by
  have h := c7_drop_autocommits
    { inner := { pending := [4], origin := none }, committed := false }
    { busy := true, content := [] }
  exact ⟨h.1, h.2.1 rfl⟩

/-- C8 counterexample: formatting a range of a *preliminary plain text*
value with valid attributes fails with `InvalidPrelimOp` — the claim
asserts this operation succeeds locally. -/
theorem c8_prelim_text_format_cex :
    YText.format 0 2 0 1 (.ok (.map [("bold", .bool true)])) c8Store
      = (c8Store, some .InvalidPrelimOp)
    ∧ some Error.InvalidPrelimOp ≠ (none : Option Error) :=
  ⟨rfl, by decide⟩

/-- C8 (amended): on Preliminary values, insert/push/delete act directly on
the buffered payload without touching the engine, parent and sibling
navigation fails with `InvalidPrelimOp`, and formatting a range with
attributes fails with `InvalidPrelimOp` for plain text and for XML text
alike (the XML element exposes no range-format operation). -/
theorem c8_prelim_state_semantics (fuel txn : Nat) (st : Store) (c : CellId) :
    (∀ pt : PrelimXmlText, st.getCell c = some (.prelimText pt) →
      (∀ i chunk, i ≤ pt.text.length →
        YXmlText.insert txn c i chunk none st
          = (st.setCell c (.prelimText { pt with text := spliceIn i chunk pt.text }),
             none))
      ∧ (∀ chunk, YXmlText.push txn c chunk none st
          = (st.setCell c (.prelimText { pt with text := pt.text ++ chunk }), none))
      ∧ (∀ i len, i + len ≤ pt.text.length →
        YXmlText.delete txn c i len st
          = (st.setCell c (.prelimText { pt with text := spliceOut i len pt.text }),
             none))
      ∧ (∀ i len attrs, YXmlText.format txn c i len (some attrs) st
          = (st, some .InvalidPrelimOp))
      ∧ xmlNextSibling c st = .error .InvalidPrelimOp
      ∧ xmlPrevSibling c st = .error .InvalidPrelimOp
      ∧ xmlParent c st = .error .InvalidPrelimOp)
    ∧ (∀ pe : PrelimXmElement, st.getCell c = some (.prelimElem pe) →
      (∀ ch, st.assertXmlPrelim ch = none →
        YXmlElement.push fuel txn c ch st
          = (st.setCell c (.prelimElem { pe with children := pe.children ++ [ch] }),
             none))
      ∧ (∀ i len, i + len ≤ pe.children.length →
        YXmlElement.delete txn c i len st
          = (st.setCell c
              (.prelimElem { pe with children := spliceOut i len pe.children }),
             none))
      ∧ xmlNextSibling c st = .error .InvalidPrelimOp
      ∧ xmlPrevSibling c st = .error .InvalidPrelimOp
      ∧ xmlParent c st = .error .InvalidPrelimOp)
    ∧ (∀ s0 : List Char, st.getCell c = some (.prelimPlain s0) →
      (∀ i chunk, i ≤ s0.length →
        YText.insert txn c i chunk none st
          = (st.setCell c (.prelimPlain (spliceIn i chunk s0)), none))
      ∧ (∀ chunk, YText.push txn c chunk none st
          = (st.setCell c (.prelimPlain (s0 ++ chunk)), none))
      ∧ (∀ i len, i + len ≤ s0.length →
        YText.delete txn c i len st
          = (st.setCell c (.prelimPlain (spliceOut i len s0)), none))
      ∧ (∀ i len a, YText.format txn c i len (.ok (.map a)) st
          = (st, some .InvalidPrelimOp))) := by
  refine ⟨?_, ?_, ?_⟩
  · intro pt h
    refine ⟨?_, ?_, ?_, ?_, ?_, ?_, ?_⟩
    · intro i chunk _
      simp [YXmlText.insert, h]
    · intro chunk
      simp [YXmlText.push, h]
    · intro i len _
      simp [YXmlText.delete, h]
    · intro i len attrs
      simp [YXmlText.format, h]
    · simp [xmlNextSibling, h]
    · simp [xmlPrevSibling, h]
    · simp [xmlParent, h]
  · intro pe h
    refine ⟨?_, ?_, ?_, ?_, ?_⟩
    · intro ch hch
      simp [YXmlElement.push, h, hch]
    · intro i len _
      simp [YXmlElement.delete, h]
    · simp [xmlNextSibling, h]
    · simp [xmlPrevSibling, h]
    · simp [xmlParent, h]
  · intro s0 h
    refine ⟨?_, ?_, ?_, ?_⟩
    · intro i chunk _
      simp [YText.insert, parse_attrs, h]
    · intro chunk
      simp [YText.push, parse_attrs, h]
    · intro i len _
      simp [YText.delete, h]
    · intro i len a
      simp [YText.format, parse_attrs, map_attrs, h]

/-- C8 witness: the amended semantics at the two preliminary fixtures —
parent navigation on a preliminary XML text errors, and a local push on a
preliminary plain text succeeds in memory. -/
theorem c8_prelim_state_semantics_witness :
    xmlParent 4 c8xStore = .error .InvalidPrelimOp
    ∧ YText.push 0 2 "!".toList none c8Store
        = (c8Store.setCell 2 (.prelimPlain ("ab".toList ++ "!".toList)), none) := by
  have h1 := (c8_prelim_state_semantics 1 0 c8xStore 4).1
    ⟨"cd".toList, [("a", .String "b")]⟩ rfl
  have h2 := (c8_prelim_state_semantics 1 0 c8Store 2).2.2 "ab".toList rfl
  exact ⟨h1.2.2.2.2.2.2, h2.2.1 "!".toList⟩

/-- C9 counterexample: a native array containing `Undefined` is not itself
`Undefined`, yet it does not round-trip losslessly — the nested `Undefined`
normalizes to `Null`. -/
theorem c9_nested_undefined_cex :
    from_yvalue (into_yvalue (.array [.undefined])) = .array [.null]
    ∧ AnyV.array [.null] ≠ AnyV.array [.undefined] :=
  ⟨rfl, by simp⟩

/-- C9 (amended): every boundary `Value` tree marshals to the engine
representation and back unchanged; in the reverse direction every native
value containing no `Undefined` anywhere round-trips losslessly, and
`Undefined` occurrences (top-level or nested) normalize to `Null`. -/
theorem c9_marshal_roundtrip :
    (∀ v : YValue, into_yvalue (from_yvalue v) = v)
    ∧ (∀ a : AnyV, a.noUndef = true → from_yvalue (into_yvalue a) = a)
    ∧ from_yvalue (into_yvalue .undefined) = .null :=
  ⟨into_from_yvalue, from_into_yvalue, rfl⟩

/-- C9 witness: the reverse round-trip at a concrete `Undefined`-free
native tree. -/
theorem c9_marshal_roundtrip_witness :
    AnyV.noUndef (.array [.bool true, .map [("k", .string "v")]]) = true
    ∧ from_yvalue (into_yvalue (.array [.bool true, .map [("k", .string "v")]]))
        = .array [.bool true, .map [("k", .string "v")]] :=
  ⟨rfl, c9_marshal_roundtrip.2.1 _ rfl⟩

/-- C10: `diff_v2` computes exactly the same function as `diff_v1` — both
decode the supplied state vector with the engine's lib0 v1 decoder and
encode the diff with the lib0 v1 encoder, for every decoder, encoder,
transaction store and input. -/
theorem c10_diff_v2_eq_diff_v1 {σ SV : Type}
    (decode_v1 : List Nat → Except String SV)
    (encode_diff_v1 : σ → SV → List Nat) (store : σ) (vector : List Nat) :
    YTransaction.diff_v2 decode_v1 encode_diff_v1 store vector
      = YTransaction.diff_v1 decode_v1 encode_diff_v1 store vector := rfl

end YrsUniffi
